import Mathlib

/-!
Verification of the agentcore-rl-toolkit client/server core.

The development shallowly embeds the Python sources:

* `src/agentcore_rl_toolkit/client.py` — `RolloutClient` (ARN parsing, payload
  building in `_rate_limited_invoke`), `RolloutFuture` (S3-HEAD polling with
  per-future exponential backoff, `result`), and `BatchResult.__iter__` (the
  batch engine loop).
* `src/agentcore_rl_toolkit/app.py` — `rollout_entrypoint_wrapper`, the
  synchronous part of the server-side entrypoint decorator.

JSON documents are embedded as `JVal` (strings, objects, null); Python floats
used for wall-clock arithmetic are embedded as exact rationals `ℚ`; fallible
Python code returns `Except String`.  Wall-clock time is threaded explicitly:
`time.time()` is a state component and `time.sleep(d)` advances it by `d`.
-/

/-- A JSON-like value: the payload shapes exchanged between the client and the
server entrypoint.  Only the constructors the toolkit manipulates are needed:
strings, objects (insertion-ordered association lists, mirroring Python
dicts), and null. -/
inductive JVal where
  | str (s : String)
  | obj (fields : List (String × JVal))
  | null
deriving Repr

/-- Association-list lookup: Python `d[k]` for the embedded dict. Returns the
first (and in a dict, only) binding. -/
def assocLookup : List (String × JVal) → String → Option JVal
  | [], _ => none
  | (k, v) :: rest, key => if k = key then some v else assocLookup rest key

/-- Python `d.get(k)`: returns `None` both when the key is absent and when the
stored value is `None`, so both collapse to `none` here. -/
def pyGet (fields : List (String × JVal)) (key : String) : Option JVal :=
  match assocLookup fields key with
  | some JVal.null => none
  | o => o

/-- Python `d[k] = v`: if the key is present its value is replaced in place,
otherwise the binding is appended (dict insertion order). -/
def pyDictSet (fields : List (String × JVal)) (key : String) (v : JVal) :
    List (String × JVal) :=
  if fields.any (fun kv => kv.1 = key) then
    fields.map (fun kv => if kv.1 = key then (key, v) else kv)
  else fields ++ [(key, v)]

/-- Python `{**a, **b}`: keys of `a` in order (values overridden by `b` where
present), followed by the keys of `b` new to `a`, in order. -/
def pyDictMerge (a b : List (String × JVal)) : List (String × JVal) :=
  b.foldl (fun acc kv => pyDictSet acc kv.1 kv.2) a

/-- Python `s.split(sep)` for a single-character separator, on the character
list of the string: splits at every occurrence, keeping empty components
(`"".split(":") = [""]`, `":".split(":") = ["", ""]`). -/
def pySplitChars (sep : Char) : List Char → List String
  | [] => [""]
  | c :: rest =>
      let r := pySplitChars sep rest
      if c = sep then "" :: r
      else
        match r with
        | [] => [String.mk [c]]
        | s :: ss => String.mk (c :: s.toList) :: ss

/-- Python `s.split(sep)` for a single-character separator. -/
def pySplit (s : String) (sep : Char) : List String :=
  pySplitChars sep s.toList

namespace RolloutClient

/-- `RolloutClient._parse_region_from_arn` (client.py): split the ARN on `":"`;
the 0-indexed field 3 is the region and must be present and non-empty,
otherwise a `ValueError` is raised. -/
def parseRegionFromArn (arn : String) : Except String String :=
  let parts := pySplit arn ':'
  if parts.length < 4 ∨ parts.getD 3 "" = "" then
    Except.error ("Invalid ARN format, cannot extract region: " ++ arn)
  else
    Except.ok (parts.getD 3 "")

/-- The rollout-config dict built by `RolloutClient._rate_limited_invoke`
(client.py lines 204-214): the four identity fields, then `**extra_config`,
then `base_url` / `model_id` if each is truthy (non-`None`, non-empty). -/
def buildRolloutConfig (expId sessionId inputId s3Bucket : String)
    (extraConfig : List (String × JVal)) (baseUrl modelId : Option String) :
    List (String × JVal) :=
  let cfg := pyDictMerge
    [("exp_id", JVal.str expId), ("session_id", JVal.str sessionId),
     ("input_id", JVal.str inputId), ("s3_bucket", JVal.str s3Bucket)]
    extraConfig
  let cfg := match baseUrl with
    | some u => if u = "" then cfg else pyDictSet cfg "base_url" (JVal.str u)
    | none => cfg
  match modelId with
  | some m => if m = "" then cfg else pyDictSet cfg "model_id" (JVal.str m)
  | none => cfg

/-- `full_payload = {**payload, "_training": rollout_config}`
(client.py line 216): the user payload extended with the rollout config under
the key `"_training"`. -/
def buildFullPayload (payload : List (String × JVal))
    (rolloutConfig : List (String × JVal)) : List (String × JVal) :=
  pyDictSet payload "_training" (JVal.obj rolloutConfig)

end RolloutClient

namespace RolloutFuture

/-- The backoff update performed by `RolloutFuture.done()` after a 404
(client.py line 67): `poll_interval = min(poll_interval * backoff_factor,
max_interval)`. -/
def backoffStep (backoffFactor maxInterval x : ℚ) : ℚ :=
  min (x * backoffFactor) maxInterval

/-- The poll interval after `k` consecutive 404 responses, starting from
`initial_interval` (client.py lines 49, 67). -/
def pollIntervalAfter (initialInterval maxInterval backoffFactor : ℚ) :
    ℕ → ℚ
  | 0 => initialInterval
  | k + 1 =>
      backoffStep backoffFactor maxInterval
        (pollIntervalAfter initialInterval maxInterval backoffFactor k)

end RolloutFuture

/-- `RolloutConfig` (app.py): the four required fields of a rollout config,
kept as raw JSON values exactly as Python stores whatever the dict held. -/
structure RolloutConfigM where
  expId : JVal
  sessionId : JVal
  inputId : JVal
  s3Bucket : JVal

/-- `RolloutConfig.from_dict` (app.py lines 21-32): reads the four required
keys, converting a `KeyError` into a `ValueError`; a non-dict argument fails
with a `TypeError` when subscripted. -/
def rolloutConfigFromDict : JVal → Except String RolloutConfigM
  | JVal.obj l =>
      match assocLookup l "exp_id", assocLookup l "session_id",
            assocLookup l "input_id", assocLookup l "s3_bucket" with
      | some e, some s, some i, some b => Except.ok ⟨e, s, i, b⟩
      | _, _, _, _ => Except.error "Missing required rollout config field"
  | _ => Except.error "TypeError: rollout config is not a dict"

/-- Python `str()` as applied to a rollout-config field when it is formatted
into the result key.  Config fields are strings on the wire, so only the
string case is exercised; `None` renders as Python does. -/
def pyStr : JVal → String
  | JVal.str s => s
  | JVal.null => "None"
  | JVal.obj _ => "<dict>"

/-- The result key computed by `rollout_entrypoint_wrapper` (app.py line 250):
`f"{exp_id}/{input_id}_{session_id}.json"`. -/
def resultKeyOf (cfg : RolloutConfigM) : String :=
  pyStr cfg.expId ++ "/" ++ pyStr cfg.inputId ++ "_" ++ pyStr cfg.sessionId
    ++ ".json"

/-- The synchronous JSON response of `rollout_entrypoint_wrapper`
(app.py lines 256-262). -/
inductive WrapResp where
  | processing (s3Bucket : JVal) (resultKey : String)
  | minimal
deriving Repr

/-- The synchronous part of `rollout_entrypoint_wrapper` (app.py lines
240-262): read `payload.get("_rollout")`; when present, validate it via
`RolloutConfig.from_dict` (a `ValueError` propagates to the base class) and
compute the result key; reply `{status: "processing", s3_bucket, result_key}`
when a config was recognized and `{status: "processing"}` otherwise.  The
background task is asynchronous and not part of the synchronous reply. -/
def rolloutEntrypointWrapper (payload : JVal) : Except String WrapResp :=
  match payload with
  | JVal.obj fields =>
      match pyGet fields "_rollout" with
      | none => Except.ok WrapResp.minimal
      | some v =>
          match rolloutConfigFromDict v with
          | Except.error e => Except.error e
          | Except.ok cfg =>
              Except.ok (WrapResp.processing cfg.s3Bucket (resultKeyOf cfg))
  | _ => Except.error "TypeError: payload is not a dict"

section ClaimC7

/-- C7: `RolloutClient` construction parses the AWS region from the agent
runtime ARN by splitting on ":" and taking the 0-indexed field 3, failing
with a `ValueError` exactly when that field is absent or empty;
`"arn:aws:bedrock-agentcore:us-west-2:123:agent/x"` yields `"us-west-2"`
while `"arn:aws:service::acct:res"` is rejected. -/
theorem c7_parse_region_from_arn :
    (∀ arn : String,
      ((RolloutClient.parseRegionFromArn arn).isOk ↔
        ¬((pySplit arn ':').length < 4 ∨ (pySplit arn ':').getD 3 "" = "")) ∧
      ∀ r, RolloutClient.parseRegionFromArn arn = Except.ok r →
        r = (pySplit arn ':').getD 3 "") ∧
    RolloutClient.parseRegionFromArn "arn:aws:bedrock-agentcore:us-west-2:123:agent/x"
      = Except.ok "us-west-2" ∧
    (RolloutClient.parseRegionFromArn "arn:aws:service::acct:res").isOk = false := by
  refine ⟨fun arn => ⟨?_, ?_⟩, by rfl, by decide⟩
  · unfold RolloutClient.parseRegionFromArn
    by_cases h : (pySplit arn ':').length < 4 ∨ (pySplit arn ':').getD 3 "" = ""
    · rw [if_pos h]
      simp only [Except.isOk, Except.toBool, Bool.false_eq_true, false_iff,
        not_not]
      exact h
    · rw [if_neg h]
      push_neg at h
      simp only [Except.isOk, Except.toBool, true_iff]
      push_neg
      exact h
  · intro r hr
    unfold RolloutClient.parseRegionFromArn at hr
    by_cases h : (pySplit arn ':').length < 4 ∨ (pySplit arn ':').getD 3 "" = ""
    · rw [if_pos h] at hr
      cases hr
    · rw [if_neg h] at hr
      cases hr
      rfl

end ClaimC7

section ClaimC5

/-- C5: the poll interval of a `RolloutFuture` after `k = 1, 2, …` successive
404 responses follows `min(initial_interval · backoff_factor^k, max_interval)`
(so any observed sequence is a prefix of it), and concretely with
`initial_interval = 1.0`, `backoff_factor = 2.0`, `max_interval = 10.0` four
consecutive 404s produce the intervals `2.0, 4.0, 8.0, 10.0`. -/
theorem c5_backoff_schedule :
    (∀ (initialInterval maxInterval backoffFactor : ℚ),
      1 ≤ backoffFactor → 0 ≤ maxInterval →
      ∀ k : ℕ, 1 ≤ k →
        RolloutFuture.pollIntervalAfter initialInterval maxInterval backoffFactor k
          = min (initialInterval * backoffFactor ^ k) maxInterval) ∧
    RolloutFuture.pollIntervalAfter 1 10 2 1 = 2 ∧
    RolloutFuture.pollIntervalAfter 1 10 2 2 = 4 ∧
    RolloutFuture.pollIntervalAfter 1 10 2 3 = 8 ∧
    RolloutFuture.pollIntervalAfter 1 10 2 4 = 10 := by
  constructor
  · intro i M f hf hM k hk
    induction k with
    | zero => omega
    | succ k ih =>
        rcases Nat.eq_or_lt_of_le hk with h1 | h1
        · have hk0 : k = 0 := by omega
          subst hk0
          simp [RolloutFuture.pollIntervalAfter, RolloutFuture.backoffStep]
        · have hk1 : 1 ≤ k := by omega
          have hf0 : (0 : ℚ) ≤ f := le_trans zero_le_one hf
          rw [RolloutFuture.pollIntervalAfter, RolloutFuture.backoffStep,
            ih hk1, min_mul_of_nonneg _ _ hf0, min_assoc]
          have hMf : M ≤ M * f := le_mul_of_one_le_right hM hf
          rw [min_eq_right hMf, pow_succ, mul_assoc]
  · refine ⟨?_, ?_, ?_, ?_⟩ <;>
      norm_num [RolloutFuture.pollIntervalAfter, RolloutFuture.backoffStep,
        min_def]

/-- Witness for `c5_backoff_schedule`: the general schedule law evaluated at
the concrete backoff configuration `(1, 10, 2)` after two 404s. -/
theorem c5_backoff_schedule_witness :
    RolloutFuture.pollIntervalAfter 1 10 2 2 = min ((1 : ℚ) * 2 ^ 2) 10 :=
  c5_backoff_schedule.1 1 10 2 (by norm_num) (by norm_num) 2 (by norm_num)

end ClaimC5

section ClaimC9

/-- C9: for every request payload containing a valid `_rollout` config the
server entrypoint wrapper synchronously replies
`{status: "processing", s3_bucket, result_key}` with
`result_key = "{exp_id}/{input_id}_{session_id}.json"` built from that
config, and for a payload without `_rollout` it replies
`{status: "processing"}` with no bucket or key. -/
theorem c9_wrapper_response :
    (∀ (fields r : List (String × JVal)) (expId sessionId inputId : String)
        (bucket : JVal),
      pyGet fields "_rollout" = some (JVal.obj r) →
      assocLookup r "exp_id" = some (JVal.str expId) →
      assocLookup r "session_id" = some (JVal.str sessionId) →
      assocLookup r "input_id" = some (JVal.str inputId) →
      assocLookup r "s3_bucket" = some bucket →
      rolloutEntrypointWrapper (JVal.obj fields)
        = Except.ok (WrapResp.processing bucket
            (expId ++ "/" ++ inputId ++ "_" ++ sessionId ++ ".json"))) ∧
    (∀ fields : List (String × JVal),
      pyGet fields "_rollout" = none →
      rolloutEntrypointWrapper (JVal.obj fields) = Except.ok WrapResp.minimal) := by
  constructor
  · intro fields r expId sessionId inputId bucket hget he hs hi hb
    simp only [rolloutEntrypointWrapper, hget, rolloutConfigFromDict,
      he, hs, hi, hb, resultKeyOf, pyStr]
  · intro fields hget
    simp only [rolloutEntrypointWrapper, hget]

/-- Witness for `c9_wrapper_response`: a concrete payload carrying a complete
`_rollout` config produces the full processing response, and the same payload
without the config produces the minimal one. -/
theorem c9_wrapper_response_witness :
    rolloutEntrypointWrapper
        (JVal.obj [("prompt", JVal.str "test"),
          ("_rollout", JVal.obj
            [("exp_id", JVal.str "exp-123"),
             ("session_id", JVal.str "sess-456"),
             ("input_id", JVal.str "input-789"),
             ("s3_bucket", JVal.str "my-bucket")])])
      = Except.ok (WrapResp.processing (JVal.str "my-bucket")
          ("exp-123" ++ "/" ++ "input-789" ++ "_" ++ "sess-456" ++ ".json")) ∧
    rolloutEntrypointWrapper (JVal.obj [("prompt", JVal.str "test")])
      = Except.ok WrapResp.minimal :=
  ⟨c9_wrapper_response.1 _ _ "exp-123" "sess-456" "input-789"
      (JVal.str "my-bucket") rfl rfl rfl rfl rfl,
   c9_wrapper_response.2 [("prompt", JVal.str "test")] rfl⟩

end ClaimC9

section ClaimC1

/-- The full submission payload that `RolloutClient._rate_limited_invoke`
sends for the user payload `{"prompt": "test"}` with `exp_id = "exp-001"`,
`session_id = "sess-1"`, `input_id = "input-1"`,
`s3_bucket = "test-bucket"`, no extra config and no model settings. -/
def c1SubmittedPayload : List (String × JVal) :=
  RolloutClient.buildFullPayload [("prompt", JVal.str "test")]
    (RolloutClient.buildRolloutConfig "exp-001" "sess-1" "input-1"
      "test-bucket" [] none none)

/-- C1 fails on the code: the client embeds the rollout config under the key
`"_training"` (client.py line 216), not `"_rollout"`, so the payload it sends
has no `"_rollout"` key and the server-side entrypoint wrapper — which reads
`payload.get("_rollout")` (app.py line 242) — does not recognize the
submission as a rollout and replies with the minimal `{status: "processing"}`
response instead of the bucket and result key. -/
theorem c1_rollout_key_mismatch :
    assocLookup c1SubmittedPayload "_rollout" = none ∧
    assocLookup c1SubmittedPayload "_training"
      = some (JVal.obj
          [("exp_id", JVal.str "exp-001"), ("session_id", JVal.str "sess-1"),
           ("input_id", JVal.str "input-1"),
           ("s3_bucket", JVal.str "test-bucket")]) ∧
    rolloutEntrypointWrapper (JVal.obj c1SubmittedPayload)
      = Except.ok WrapResp.minimal :=
  ⟨rfl, rfl, rfl⟩

end ClaimC1

namespace RolloutFuture

/-- The I/O actions a `RolloutFuture` can issue against S3 and the clock:
`head_object`, `get_object`, and `time.sleep(d)`. -/
inductive Eff where
  | head
  | get
  | sleep (d : ℚ)
deriving Repr

/-- The state of a `RolloutFuture` as used by `result()` (client.py lines
42-53): the cached result, the `_done` flag, the backoff state, and — as the
environment — the S3 behaviour for this key: `polls = some k` means HEAD
returns 404 exactly `k` more times and then succeeds, `polls = none` means
the object never appears; `fetch` is the parsed body a GET returns. -/
structure FutR (β : Type) where
  res : Option β
  doneFlag : Bool
  polls : Option ℕ
  fetch : β
  pollInterval : ℚ
  maxInterval : ℚ
  backoffFactor : ℚ
  lastPollTime : ℚ

/-- `RolloutFuture.done()` (client.py lines 55-69) at wall-clock `now`:
returns immediately when `_done` is set; otherwise issues a HEAD; on success
sets `_done`; on 404 records `last_poll_time = now` and applies the capped
exponential backoff `poll_interval = min(poll_interval * backoff_factor,
max_interval)`. -/
def doneStep (now : ℚ) (f : FutR β) : Bool × FutR β × List Eff :=
  if f.doneFlag then (true, f, [])
  else
    match f.polls with
    | some 0 => (true, { f with doneFlag := true }, [Eff.head])
    | some (k + 1) =>
        (false,
         { f with polls := some k, lastPollTime := now,
                  pollInterval :=
                    min (f.pollInterval * f.backoffFactor) f.maxInterval },
         [Eff.head])
    | none =>
        (false,
         { f with lastPollTime := now,
                  pollInterval :=
                    min (f.pollInterval * f.backoffFactor) f.maxInterval },
         [Eff.head])

/-- How a call to `result()` ends: a returned value, a raised `TimeoutError`,
or still looping when the step budget runs out. -/
inductive ResultOutcome (β : Type) where
  | returned (v : β)
  | timeoutError (msg : String)
  | outOfFuel
deriving Repr

/-- The `while True` loop of `RolloutFuture.result()` (client.py lines
103-113), stepped at most `fuel` times: check `done()`; on done, GET, cache
and return; then the guard `if timeout and (time.time() - start) > timeout`
(note: a timeout of `0` is falsy in Python, so the deadline check is skipped
for it exactly as for `None`); otherwise sleep the current `poll_interval`.
Returns the outcome, the final wall clock, the final future state and the
I/O trace. -/
def resultLoop (timeout : Option ℚ) (start : ℚ) :
    ℕ → ℚ → FutR β → ResultOutcome β × ℚ × FutR β × List Eff
  | 0, now, f => (ResultOutcome.outOfFuel, now, f, [])
  | n + 1, now, f =>
      let s := doneStep now f
      if s.1 then
        (ResultOutcome.returned s.2.1.fetch, now,
         { s.2.1 with res := some s.2.1.fetch }, s.2.2 ++ [Eff.get])
      else
        let timedOut := match timeout with
          | none => false
          | some t => decide (¬ t = 0) && decide (now - start > t)
        if timedOut then
          (ResultOutcome.timeoutError
             ("Result not ready after " ++ toString (timeout.getD 0) ++ "s"),
           now, s.2.1, s.2.2)
        else
          let r := resultLoop timeout start n (now + s.2.1.pollInterval) s.2.1
          (r.1, r.2.1, r.2.2.1, s.2.2 ++ [Eff.sleep s.2.1.pollInterval] ++ r.2.2.2)

/-- `RolloutFuture.result(timeout)` (client.py lines 82-113) entered at
wall-clock `now`: a cached result is returned at once with no I/O; otherwise
`start = time.time()` and the polling loop runs. -/
def resultRun (timeout : Option ℚ) (fuel : ℕ) (now : ℚ) (f : FutR β) :
    ResultOutcome β × ℚ × FutR β × List Eff :=
  match f.res with
  | some v => (ResultOutcome.returned v, now, f, [])
  | none => resultLoop timeout now fuel now f

end RolloutFuture

section ClaimC8

/-- A fresh future whose result object never appears: no cached result, not
done, permanent 404, `initial_interval = 1`, `max_interval = 10`,
`backoff_factor = 2`. -/
def c8NeverDoneFut : RolloutFuture.FutR ℕ :=
  ⟨none, false, none, 42, 1, 10, 2, 0⟩

/-- C8 as stated is false for `timeout = 0`: `0` is falsy in the guard
`if timeout and (time.time() - start) > timeout` (client.py line 109), so
with a permanent 404 the loop keeps polling and sleeping — here 14 wall-clock
seconds have passed, far beyond the 0-second deadline, the future is still
not done, and no `TimeoutError` has been raised after three full loop
iterations. -/
theorem c8_result_timeout_zero_counterexample :
    (RolloutFuture.resultRun (some 0) 3 0 c8NeverDoneFut).1
        = RolloutFuture.ResultOutcome.outOfFuel ∧
    (RolloutFuture.resultRun (some 0) 3 0 c8NeverDoneFut).2.1 = 14 ∧
    (RolloutFuture.resultRun (some 0) 3 0 c8NeverDoneFut).2.2.1.doneFlag
        = false := by
  norm_num [RolloutFuture.resultRun, RolloutFuture.resultLoop,
    RolloutFuture.doneStep, c8NeverDoneFut, min_def]

/-- Timeout progress lemma for `result()`: from any reachable never-done
state whose poll interval is at least `δ > 0`, a positive timeout `t` is
eventually exceeded — each loop iteration sleeps at least `δ` — and the loop
raises `TimeoutError`. -/
theorem c8_timeout_progress {β : Type} (t start δ M bf : ℚ) (ht : 0 < t)
    (hd : 0 < δ) (hbf : 1 ≤ bf) (hdM : δ ≤ M) :
    ∀ (k : ℕ) (now : ℚ) (g : RolloutFuture.FutR β),
      g.res = none → g.doneFlag = false → g.polls = none →
      δ ≤ g.pollInterval → g.maxInterval = M → g.backoffFactor = bf →
      start ≤ now → t < now - start + k * δ →
      ∃ n, (RolloutFuture.resultLoop (some t) start n now g).1 =
        RolloutFuture.ResultOutcome.timeoutError
          ("Result not ready after " ++ toString t ++ "s") := by
  intro k
  induction k with
  | zero =>
      intro now g _ h2 h3 _ _ _ _ h8
      refine ⟨1, ?_⟩
      have hgt : now - start > t := by
        simpa using h8
      simp only [RolloutFuture.resultLoop, RolloutFuture.doneStep, h2, h3,
        Bool.false_eq_true, if_false]
      have hne : ¬ t = 0 := ne_of_gt ht
      simp [hne, hgt]
  | succ k ih =>
      intro now g h1 h2 h3 h4 h5 h6 h7 h8
      by_cases hgt : now - start > t
      · refine ⟨1, ?_⟩
        simp only [RolloutFuture.resultLoop, RolloutFuture.doneStep, h2, h3,
          Bool.false_eq_true, if_false]
        have hne : ¬ t = 0 := ne_of_gt ht
        simp [hne, hgt]
      · -- one more 404 poll and sleep, then recurse
        have hi0 : (0 : ℚ) ≤ g.pollInterval := le_of_lt (lt_of_lt_of_le hd h4)
        have hstep : δ ≤ min (g.pollInterval * g.backoffFactor) g.maxInterval := by
          refine le_min ?_ (h5 ▸ hdM)
          calc δ ≤ g.pollInterval := h4
            _ = g.pollInterval * 1 := (mul_one _).symm
            _ ≤ g.pollInterval * g.backoffFactor := by
                exact mul_le_mul_of_nonneg_left (h6 ▸ hbf) hi0
        set g1 : RolloutFuture.FutR β :=
          { g with lastPollTime := now,
                   pollInterval :=
                     min (g.pollInterval * g.backoffFactor) g.maxInterval }
            with hg1
        have hrec := ih (now + g1.pollInterval) g1 h1 h2 h3 hstep h5 h6
          (by
            have : (0 : ℚ) < g1.pollInterval := lt_of_lt_of_le hd hstep
            linarith)
          (by
            have hδ1 : δ ≤ g1.pollInterval := hstep
            have : t < now - start + (δ + k * δ) := by
              have := h8
              push_cast [add_mul] at this ⊢
              linarith
            linarith)
        obtain ⟨n, hn⟩ := hrec
        refine ⟨n + 1, ?_⟩
        have hne : ¬ t = 0 := ne_of_gt ht
        have hds : RolloutFuture.doneStep now g
            = (false, g1, [RolloutFuture.Eff.head]) := by
          simp only [RolloutFuture.doneStep, h2, h3, Bool.false_eq_true,
            if_false]
          rw [hg1, h2, h3]
        simp only [RolloutFuture.resultLoop, hds]
        simp [hne, hgt, hn]

/-- C8 amended: `result(timeout)` returns a cached result immediately with no
I/O; when the first HEAD succeeds it issues one GET, caches and returns the
body; and for every **positive** timeout it raises `TimeoutError` once the
deadline passes while the object never appears.  A timeout of `0` is falsy in
the Python guard `if timeout and ...` and so — like `None` — disables the
deadline entirely (see the counterexample), which is the only change from the
claim as written. -/
theorem c8_result_behaviour_amended :
    (∀ (β : Type) (v : β) (f : RolloutFuture.FutR β) (timeout : Option ℚ)
        (fuel : ℕ) (now : ℚ),
      f.res = some v →
      RolloutFuture.resultRun timeout fuel now f
        = (RolloutFuture.ResultOutcome.returned v, now, f, [])) ∧
    (∀ (β : Type) (f : RolloutFuture.FutR β) (timeout : Option ℚ)
        (fuel : ℕ) (now : ℚ),
      f.res = none → f.doneFlag = false → f.polls = some 0 →
      RolloutFuture.resultRun timeout (fuel + 1) now f
        = (RolloutFuture.ResultOutcome.returned f.fetch, now,
           { f with doneFlag := true, res := some f.fetch },
           [RolloutFuture.Eff.head, RolloutFuture.Eff.get])) ∧
    (∀ (β : Type) (f : RolloutFuture.FutR β) (t now : ℚ),
      f.res = none → f.doneFlag = false → f.polls = none →
      0 < t → 0 < f.pollInterval → 1 ≤ f.backoffFactor →
      f.pollInterval ≤ f.maxInterval →
      ∃ n, (RolloutFuture.resultRun (some t) n now f).1 =
        RolloutFuture.ResultOutcome.timeoutError
          ("Result not ready after " ++ toString t ++ "s")) := by
  refine ⟨?_, ?_, ?_⟩
  · intro β v f timeout fuel now h
    simp [RolloutFuture.resultRun, h]
  · intro β f timeout fuel now h1 h2 h3
    simp [RolloutFuture.resultRun, RolloutFuture.resultLoop,
      RolloutFuture.doneStep, h1, h2, h3]
  · intro β f t now h1 h2 h3 ht hi hbf him
    obtain ⟨k, hk⟩ := exists_nat_gt (t / f.pollInterval)
    have hks : t < now - now + k * f.pollInterval := by
      have : t < k * f.pollInterval := by
        rwa [div_lt_iff₀ hi] at hk
      linarith
    obtain ⟨n, hn⟩ := c8_timeout_progress t now f.pollInterval f.maxInterval
      f.backoffFactor ht hi hbf him k now f h1 h2 h3 le_rfl rfl rfl le_rfl hks
    refine ⟨n, ?_⟩
    simpa [RolloutFuture.resultRun, h1] using hn

/-- Witness for `c8_result_behaviour_amended`: a cached value is returned
unchanged with no I/O, and with `timeout = 1` a permanently-404 future
eventually raises `TimeoutError`. -/
theorem c8_result_behaviour_witness :
    RolloutFuture.resultRun (some 5) 7 3
        (⟨some 42, true, none, 42, 1, 10, 2, 0⟩ : RolloutFuture.FutR ℕ)
      = (RolloutFuture.ResultOutcome.returned 42, 3,
         ⟨some 42, true, none, 42, 1, 10, 2, 0⟩, []) ∧
    ∃ n, (RolloutFuture.resultRun (some 1) n 0 c8NeverDoneFut).1 =
      RolloutFuture.ResultOutcome.timeoutError
        ("Result not ready after " ++ toString (1 : ℚ) ++ "s") :=
  ⟨c8_result_behaviour_amended.1 ℕ 42 _ (some 5) 7 3 rfl,
   c8_result_behaviour_amended.2.2 ℕ c8NeverDoneFut 1 0 rfl rfl rfl
     (by norm_num) (by norm_num [c8NeverDoneFut]) (by norm_num [c8NeverDoneFut])
     (by norm_num [c8NeverDoneFut])⟩

end ClaimC8

namespace SpecFuture

/-- Modelled from the spec: the cancellation-capable `RolloutFuture` of this
repository is not present under `src/` (only `tests/test_client.py` exercises
it); its state is modelled from spec §3 and §4.3 — the monotonic
`cancelled_flag` and `done_flag`, the cached result, and the transport
binding (`agentcore_client` handle, `session_id`, `agent_runtime_arn`) used
only for remote cancellation. -/
structure FutC (β : Type) where
  cancelled : Bool
  doneFlag : Bool
  res : Option β
  hasTransport : Bool
  sessionId : Option String
  runtimeArn : Option String
  polls : Option ℕ
  fetch : β

/-- The remote calls a cancellable future can issue: S3 HEAD/GET and the
runtime `stop_session(runtime_arn, session_id)`. -/
inductive CEff where
  | head
  | get
  | stop (runtimeArn : Option String) (sessionId : String)
deriving Repr

/-- Modelled from the spec (§4.3 `cancel`): if already cancelled, return
false and do nothing.  Otherwise mark `cancelled_flag` true and, when a
transport handle and a session id are bound, issue one best-effort
`stop_session(runtime_arn, session_id)`; return true when the call
succeeded, false when it raised (`stopRaises`) or when no handle is
bound. -/
def cancelC (stopRaises : Bool) (f : FutC β) : Bool × FutC β × List CEff :=
  if f.cancelled then (false, f, [])
  else
    let f1 := { f with cancelled := true }
    match f.hasTransport, f.sessionId with
    | true, some sid =>
        (!stopRaises, f1, [CEff.stop f.runtimeArn sid])
    | _, _ => (false, f1, [])

/-- Modelled from the spec (§4.3 `done`, §9 design notes): cancellation and
completion are checked before any remote I/O; a done-or-cancelled future
answers true without a HEAD, otherwise one HEAD is issued with the usual
404 handling (backoff state is irrelevant to the cancellation claim and
omitted). -/
def doneC (f : FutC β) : Bool × FutC β × List CEff :=
  if f.doneFlag || f.cancelled then (true, f, [])
  else
    match f.polls with
    | some 0 => (true, { f with doneFlag := true }, [CEff.head])
    | _ => (false, f, [CEff.head])

/-- The outcome of the spec-modelled `result()`: a cancellation error, a
value, or still pending (the polling loop itself is modelled separately as
`RolloutFuture.resultRun`). -/
inductive CResult (β : Type) where
  | cancelledError
  | returned (v : β)
  | pending
deriving Repr

/-- Modelled from the spec (§4.3 `result`, §9 design notes): cancellation is
checked before any remote I/O, so a cancelled future's `result()` fails with
a cancellation error without issuing a HEAD or GET; a cached result is
returned without I/O; otherwise the future is still pending and the polling
loop (modelled as `RolloutFuture.resultRun`) would run. -/
def resultC (f : FutC β) : CResult β × List CEff :=
  if f.cancelled then (CResult.cancelledError, [])
  else
    match f.res with
    | some v => (CResult.returned v, [])
    | none => (CResult.pending, [])

end SpecFuture

section ClaimC3

/-- C3 (spec-modelled): `cancel()` is idempotent — on an already-cancelled
future it returns false and changes nothing; on a fresh future it marks the
future cancelled, issues at most one best-effort `stop_session` (exactly one,
with the bound `runtime_arn` and `session_id`, when a transport handle and
session id are bound; none otherwise), returns true iff the stop call was
issued and did not raise, and afterwards `done()` is true without any HEAD,
`result()` fails with a cancellation error without I/O, and a second
`cancel()` returns false and does nothing. -/
theorem c3_cancel_idempotent :
    (∀ (β : Type) (f : SpecFuture.FutC β) (stopRaises : Bool),
      f.cancelled = true →
      SpecFuture.cancelC stopRaises f = (false, f, [])) ∧
    (∀ (β : Type) (f : SpecFuture.FutC β) (stopRaises : Bool),
      f.cancelled = false →
      (SpecFuture.cancelC stopRaises f).2.1.cancelled = true ∧
      ((SpecFuture.cancelC stopRaises f).2.2.length ≤ 1) ∧
      (∀ sid, f.hasTransport = true → f.sessionId = some sid →
        (SpecFuture.cancelC stopRaises f).1 = !stopRaises ∧
        (SpecFuture.cancelC stopRaises f).2.2
          = [SpecFuture.CEff.stop f.runtimeArn sid]) ∧
      (f.hasTransport = false ∨ f.sessionId = none →
        (SpecFuture.cancelC stopRaises f).1 = false ∧
        (SpecFuture.cancelC stopRaises f).2.2 = []) ∧
      SpecFuture.doneC (SpecFuture.cancelC stopRaises f).2.1
        = (true, (SpecFuture.cancelC stopRaises f).2.1, []) ∧
      SpecFuture.resultC (SpecFuture.cancelC stopRaises f).2.1
        = (SpecFuture.CResult.cancelledError, []) ∧
      (∀ stopRaises2 : Bool,
        SpecFuture.cancelC stopRaises2 (SpecFuture.cancelC stopRaises f).2.1
          = (false, (SpecFuture.cancelC stopRaises f).2.1, []))) := by
  constructor
  · intro β f sr h
    simp [SpecFuture.cancelC, h]
  · intro β f sr h
    have hc : (SpecFuture.cancelC sr f).2.1.cancelled = true := by
      simp only [SpecFuture.cancelC, h, Bool.false_eq_true, if_false]
      rcases hf : f.hasTransport with _ | _ <;>
        rcases hs : f.sessionId with _ | sid <;> simp [hf, hs]
    refine ⟨hc, ?_, ?_, ?_, ?_, ?_, ?_⟩
    · simp only [SpecFuture.cancelC, h, Bool.false_eq_true, if_false]
      rcases hf : f.hasTransport with _ | _ <;>
        rcases hs : f.sessionId with _ | sid <;> simp [hf, hs]
    · intro sid hf hs
      simp [SpecFuture.cancelC, h, hf, hs]
    · intro hfs
      rcases hfs with hf | hs
      · simp only [SpecFuture.cancelC, h, Bool.false_eq_true, if_false]
        rcases hs : f.sessionId with _ | sid <;> simp [hf, hs]
      · simp only [SpecFuture.cancelC, h, Bool.false_eq_true, if_false]
        rcases hf : f.hasTransport with _ | _ <;> simp [hf, hs]
    · simp [SpecFuture.doneC, hc]
    · simp [SpecFuture.resultC, hc]
    · intro sr2
      generalize hgen : (SpecFuture.cancelC sr f).2.1 = f1 at hc ⊢
      simp [SpecFuture.cancelC, hc]

/-- Witness for `c3_cancel_idempotent`: a bound fresh future is cancelled
with one stop call, and an already-cancelled future is untouched. -/
theorem c3_cancel_idempotent_witness :
    SpecFuture.cancelC false
        (⟨true, false, none, true, some "sess-1", some "arn:x", none, 0⟩ :
          SpecFuture.FutC ℕ)
      = (false, ⟨true, false, none, true, some "sess-1", some "arn:x", none, 0⟩, []) ∧
    (SpecFuture.cancelC false
        (⟨false, false, none, true, some "sess-1", some "arn:x", none, 0⟩ :
          SpecFuture.FutC ℕ)).2.2
      = [SpecFuture.CEff.stop (some "arn:x") "sess-1"] :=
  ⟨c3_cancel_idempotent.1 ℕ _ false rfl,
   ((c3_cancel_idempotent.2 ℕ
      ⟨false, false, none, true, some "sess-1", some "arn:x", none, 0⟩
      false rfl).2.2.1 "sess-1" rfl rfl).2⟩

end ClaimC3

namespace BatchResult

/-- The parameters of `BatchResult.__iter__` (client.py lines 305-319)
together with the client's rate-limit interval
(`_min_invoke_interval = 1 / tps_limit`, client.py line 188). -/
structure EngCfg where
  maxConcurrent : ℤ
  minInvokeInterval : ℚ
  initialInterval : ℚ
  maxInterval : ℚ
  backoffFactor : ℚ

/-- The behaviour of one submission as seen by the engine: either
`invoke_agent_runtime` raises, or it is accepted and the runtime reply names
a `result_key` whose object appears after `polls` 404 responses, after which
the GET either parses to a body or raises. -/
inductive SubmitOutcome (β : Type) where
  | submitError (msg : String)
  | accepted (key : String) (polls : ℕ) (fetch : Except String β)

/-- One active `RolloutFuture` of the batch (client.py lines 329, 338-344):
its result key, the index of its payload, the remaining 404 responses before
HEAD succeeds, the GET behaviour, the `_done` flag, and the backoff state
(the batch overrides the intervals, `_last_poll_time` starts at `0.0` from
`__init__`). -/
structure FutSt (β : Type) where
  key : String
  idx : ℕ
  polls : ℕ
  fetch : Except String β
  doneFlag : Bool
  pollInterval : ℚ
  lastPollTime : ℚ

/-- `BatchItem` (client.py lines 13-27): success flag, optional result,
optional error message and the payload's index. -/
structure BatchItemM (β : Type) where
  success : Bool
  result : Option β := none
  error : Option String := none
  index : ℕ

/-- The engine state across iterations of the `while` loop of `__iter__`
(client.py lines 328-331): the wall clock, the client's
`_last_invoke_time`, the pending `(index, payload)` queue, the active
futures in dict insertion order, and the items yielded so far. -/
structure EngSt (α β : Type) where
  now : ℚ
  lastInvokeTime : ℚ
  pending : List (ℕ × α)
  active : List (FutSt β)
  out : List (BatchItemM β)

/-- The TPS limiter of `_rate_limited_invoke` (client.py lines 196-201):
sleep until `_min_invoke_interval` has passed since the previous invoke,
then stamp `_last_invoke_time`. -/
def tpsAdvance (cfg : EngCfg) (s : EngSt α β) : EngSt α β :=
  let elapsed := s.now - s.lastInvokeTime
  let now' := if elapsed < cfg.minInvokeInterval then
      s.now + (cfg.minInvokeInterval - elapsed)
    else s.now
  { s with now := now', lastInvokeTime := now' }

/-- Python `active_futures[future.result_key] = (idx, future)` (client.py
line 344): replace in place when the key exists, else append. -/
def dictSetFut (l : List (FutSt β)) (f : FutSt β) : List (FutSt β) :=
  if l.any (fun g => g.key = f.key) then
    l.map (fun g => if g.key = f.key then f else g)
  else l ++ [f]

/-- The inner fill loop of `__iter__` (client.py lines 333-346): while
payloads are pending and `len(active_futures) < max_concurrent`, pop the
head, invoke it (rate limited); on success insert the future with the
batch-level backoff settings, on failure immediately yield a failure item. -/
def fillGo (cfg : EngCfg) (env : ℕ → SubmitOutcome β) :
    List (ℕ × α) → EngSt α β → EngSt α β
  | [], s => s
  | (i, p) :: rest, s =>
      if (s.active.length : ℤ) < cfg.maxConcurrent then
        let s1 := tpsAdvance cfg s
        match env i with
        | SubmitOutcome.submitError e =>
            fillGo cfg env rest
              { s1 with out := s1.out ++ [⟨false, none, some e, i⟩] }
        | SubmitOutcome.accepted key polls fetch =>
            let fut : FutSt β :=
              ⟨key, i, polls, fetch, false, cfg.initialInterval, 0⟩
            fillGo cfg env rest { s1 with active := dictSetFut s1.active fut }
      else { s with pending := (i, p) :: rest }

/-- `future.result()` as called in the poll phase (client.py lines 353-357)
on a future whose HEAD has succeeded: the GET either returns a parsed body
(a success item) or raises (a failure item). -/
def mkItem (f : FutSt β) : BatchItemM β :=
  match f.fetch with
  | Except.ok r => ⟨true, some r, none, f.idx⟩
  | Except.error e => ⟨false, none, some e, f.idx⟩

/-- One visit of the poll loop (client.py lines 350-357): when the future is
ready to poll (`time_until_next_poll() ≤ 0`, client.py lines 71-80) its
`done()` runs — HEAD success completes it and yields an item, a 404 applies
the backoff update; otherwise nothing happens.  Returns the updated future,
the yielded item if any, and whether the key was marked completed. -/
def pollOne (cfg : EngCfg) (now : ℚ) (f : FutSt β) :
    FutSt β × Option (BatchItemM β) × Bool :=
  if f.pollInterval ≤ now - f.lastPollTime then
    if f.doneFlag then (f, some (mkItem f), true)
    else
      match f.polls with
      | 0 =>
          let f' := { f with doneFlag := true }
          (f', some (mkItem f'), true)
      | p + 1 =>
          ({ f with polls := p, lastPollTime := now,
                    pollInterval :=
                      min (f.pollInterval * cfg.backoffFactor)
                        cfg.maxInterval },
           none, false)
  else (f, none, false)

/-- The poll phase over the active dict in insertion order (client.py lines
349-357): visit every future, collecting updated futures, completed keys and
yielded items. -/
def pollPhase (cfg : EngCfg) (now : ℚ) :
    List (FutSt β) → List (FutSt β) × List String × List (BatchItemM β)
  | [] => ([], [], [])
  | f :: fs =>
      let v := pollOne cfg now f
      let r := pollPhase cfg now fs
      (v.1 :: r.1,
       (if v.2.2 then [v.1.key] else []) ++ r.2.1,
       v.2.1.toList ++ r.2.2)

/-- `max(0, poll_interval - (now - last_poll_time))` (client.py line 76). -/
def waitTime (now : ℚ) (f : FutSt β) : ℚ :=
  max 0 (f.pollInterval - (now - f.lastPollTime))

/-- `min(f.time_until_next_poll() for f in active_futures.values())`
(client.py line 365) over a non-empty list. -/
def minWait (now : ℚ) : List (FutSt β) → ℚ
  | [] => 0
  | [f] => waitTime now f
  | f :: fs => min (waitTime now f) (minWait now fs)

/-- One iteration of the `while pending_payloads or active_futures` loop of
`__iter__` (client.py lines 331-367): fill, poll, reap completed keys, and
— when futures remain and none completed — sleep until the next poll is
due. -/
def engineStep (cfg : EngCfg) (env : ℕ → SubmitOutcome β) (s : EngSt α β) :
    EngSt α β :=
  let s1 := fillGo cfg env s.pending { s with pending := [] }
  let pr := pollPhase cfg s1.now s1.active
  let reaped := pr.1.filter (fun g => g.key ∉ pr.2.1)
  let s2 := { s1 with active := reaped, out := s1.out ++ pr.2.2 }
  if reaped.isEmpty = false ∧ pr.2.1.isEmpty then
    let m := minWait s2.now reaped
    if 0 < m then { s2 with now := s2.now + m } else s2
  else s2

/-- Running `__iter__` for at most `fuel` loop iterations: `some out` when
the loop's condition `pending_payloads or active_futures` became false (the
generator is exhausted) with `out` the full yield sequence, `none` when the
budget ran out first. -/
def engineRun (cfg : EngCfg) (env : ℕ → SubmitOutcome β) :
    ℕ → EngSt α β → Option (List (BatchItemM β))
  | 0, s => if s.pending.isEmpty && s.active.isEmpty then some s.out else none
  | n + 1, s =>
      if s.pending.isEmpty && s.active.isEmpty then some s.out
      else engineRun cfg env n (engineStep cfg env s)

/-- The initial engine state (client.py lines 328-329):
`pending_payloads = list(enumerate(payloads))`, no active futures, nothing
yielded; the wall clock starts at `t0` and the client's `_last_invoke_time`
is `0.0`. -/
def engineInit (t0 : ℚ) (payloads : List α) : EngSt α β :=
  ⟨t0, 0, payloads.enum, [], []⟩

end BatchResult

section ClaimC10

/-- With `max_concurrent ≤ 0`, payloads pending and no active futures, one
engine iteration changes nothing: the fill guard
`len(active_futures) < max_concurrent` admits nothing, the poll phase has
nothing to visit, and the sleep guard `if active_futures and ...` fails. -/
theorem engineStep_stuck {α β : Type} (cfg : BatchResult.EngCfg)
    (env : ℕ → BatchResult.SubmitOutcome β) (s : BatchResult.EngSt α β)
    (hmc : cfg.maxConcurrent ≤ 0) (hp : s.pending ≠ [])
    (ha : s.active = []) :
    BatchResult.engineStep cfg env s = s := by
  obtain ⟨nw, lti, pend, act, outs⟩ := s
  have ha' : act = [] := ha
  subst ha'
  rcases pend with _ | ⟨⟨i, p⟩, rest⟩
  · exact absurd rfl hp
  · have hguard : ¬ ((0 : ℤ) < cfg.maxConcurrent) := by omega
    simp [BatchResult.engineStep, BatchResult.fillGo, BatchResult.pollPhase,
      hguard]

/-- With `max_concurrent ≤ 0` and payloads pending, the engine loop never
exits, whatever the step budget. -/
theorem engineRun_stuck {α β : Type} (cfg : BatchResult.EngCfg)
    (env : ℕ → BatchResult.SubmitOutcome β)
    (hmc : cfg.maxConcurrent ≤ 0) :
    ∀ (n : ℕ) (s : BatchResult.EngSt α β), s.pending ≠ [] → s.active = [] →
      BatchResult.engineRun cfg env n s = none := by
  intro n
  induction n with
  | zero =>
      intro s hp _
      have : s.pending.isEmpty = false := by
        rcases hpl : s.pending with _ | _
        · exact absurd hpl hp
        · simp
      simp [BatchResult.engineRun, this]
  | succ n ih =>
      intro s hp ha
      have hemp : s.pending.isEmpty = false := by
        rcases hpl : s.pending with _ | _
        · exact absurd hpl hp
        · simp
      rw [BatchResult.engineRun, if_neg (by simp [hemp]),
        engineStep_stuck cfg env s hmc hp ha]
      exact ih s hp ha

/-- C10: if `max_concurrent_sessions ≤ 0` and the payload list is non-empty,
iterating the `BatchResult` spins forever without yielding: the fill guard
never admits a submission, the active set stays empty so the poll and sleep
phases do nothing, every iteration leaves the state (and hence the empty
yield list) unchanged, and no step budget makes the loop terminate. -/
theorem c10_nonpositive_concurrency_spins :
    ∀ (α β : Type) (cfg : BatchResult.EngCfg)
      (env : ℕ → BatchResult.SubmitOutcome β) (t0 : ℚ) (payloads : List α),
      payloads ≠ [] → cfg.maxConcurrent ≤ 0 →
      (∀ n, BatchResult.engineRun cfg env n
          (BatchResult.engineInit t0 payloads) = none) ∧
      BatchResult.engineStep cfg env (BatchResult.engineInit t0 payloads)
        = BatchResult.engineInit t0 payloads ∧
      (BatchResult.engineInit t0 payloads :
          BatchResult.EngSt α β).out = [] := by
  intro α β cfg env t0 payloads hp hmc
  have hpe : (BatchResult.engineInit t0 payloads :
      BatchResult.EngSt α β).pending ≠ [] := by
    simpa [BatchResult.engineInit, List.enum_eq_nil] using hp
  have hae : (BatchResult.engineInit t0 payloads :
      BatchResult.EngSt α β).active = [] := rfl
  exact ⟨fun n => engineRun_stuck cfg env hmc n _ hpe hae,
    engineStep_stuck cfg env _ hmc hpe hae, rfl⟩

/-- Witness for `c10_nonpositive_concurrency_spins`: one payload and
`max_concurrent_sessions = 0` spin with no yields. -/
theorem c10_nonpositive_concurrency_spins_witness :
    BatchResult.engineRun (⟨0, 0, 1, 10, 2⟩ : BatchResult.EngCfg)
        (fun _ => BatchResult.SubmitOutcome.accepted "k" 0
          (Except.ok (0 : ℕ))) 5
        (BatchResult.engineInit 0 [(0 : ℕ)]) = none :=
  (c10_nonpositive_concurrency_spins ℕ ℕ _ _ 0 [0] (by decide) (by decide)).1 5

end ClaimC10

namespace BatchResult

/-- The key the runtime reply names for payload `i`, when submission is
accepted. -/
def acceptedKey (env : ℕ → SubmitOutcome β) (i : ℕ) : Option String :=
  match env i with
  | SubmitOutcome.accepted k _ _ => some k
  | SubmitOutcome.submitError _ => none

/-- Result keys of distinct payloads are distinct — in the running system
they embed freshly generated UUID session/input ids. -/
def KeysInj (env : ℕ → SubmitOutcome β) (N : ℕ) : Prop :=
  ∀ i ∈ List.range N, ∀ j ∈ List.range N, i ≠ j →
    ∀ k, acceptedKey env i = some k → acceptedKey env j = some k → False

/-- Termination weight of an active future: its remaining 404 polls, plus
completion and fetch. -/
def futW (f : FutSt β) : ℕ := 2 * f.polls + 2

/-- Termination weight of a list of active futures. -/
def futsum (l : List (FutSt β)) : ℕ := (l.map futW).sum

/-- Termination weight of one pending payload, from its submission
behaviour. -/
def wOf : SubmitOutcome β → ℕ
  | SubmitOutcome.submitError _ => 1
  | SubmitOutcome.accepted _ p _ => 2 * p + 3

/-- Termination weight of the pending queue. -/
def wsum (env : ℕ → SubmitOutcome β) (pend : List (ℕ × α)) : ℕ :=
  (pend.map (fun q => wOf (env q.1))).sum

/-- The total termination measure of an engine state. -/
def engMeasure (env : ℕ → SubmitOutcome β) (s : EngSt α β) : ℕ :=
  wsum env s.pending + futsum s.active

/-- `ready_to_poll()` (client.py lines 78-80) as a proposition. -/
def readyF (now : ℚ) (f : FutSt β) : Prop :=
  f.pollInterval ≤ now - f.lastPollTime

instance (now : ℚ) (f : FutSt β) : Decidable (readyF now f) := by
  unfold readyF
  infer_instance

/-- 1 when no active future is due for a poll (the engine must sleep to make
progress), 0 otherwise. -/
def readyBit (s : EngSt α β) : ℕ :=
  if s.active.any (fun f => decide (readyF s.now f)) then 0 else 1

/-- The strictly decreasing potential of the engine loop. -/
def engPot (env : ℕ → SubmitOutcome β) (s : EngSt α β) : ℕ :=
  2 * engMeasure env s + readyBit s

/-- The loop invariant of `__iter__` for an `N`-payload batch: yielded,
pending and active indices are jointly a permutation of `range N`, and every
active future is coherent with the submission environment: its key and fetch
behaviour come from its accepted submission, its remaining 404 budget never
exceeds the environment's, and its `_done` flag is clear. -/
structure Inv (env : ℕ → SubmitOutcome β) (N : ℕ) (s : EngSt α β) : Prop where
  perm : (s.out.map BatchItemM.index ++ s.pending.map Prod.fst
            ++ s.active.map FutSt.idx).Perm (List.range N)
  coh : ∀ f ∈ s.active, ∃ p0, env f.idx = SubmitOutcome.accepted f.key p0 f.fetch
          ∧ f.polls ≤ p0 ∧ f.doneFlag = false

theorem dictSetFut_append (l : List (FutSt β)) (f : FutSt β)
    (h : ∀ g ∈ l, g.key ≠ f.key) : dictSetFut l f = l ++ [f] := by
  unfold dictSetFut
  rw [if_neg]
  simp only [List.any_eq_true, not_exists, not_and]
  intro g hg
  simp [h g hg]

theorem minWait_attained (now : ℚ) :
    ∀ (l : List (FutSt β)), l ≠ [] →
      ∃ f ∈ l, waitTime now f = minWait now l := by
  intro l
  induction l with
  | nil => intro h; exact absurd rfl h
  | cons f fs ih =>
      intro _
      rcases hfs : fs with _ | ⟨g, gs⟩
      · exact ⟨f, by simp, rfl⟩
      · subst hfs
        obtain ⟨g0, hg0, hw⟩ := ih (by simp)
        rcases le_total (waitTime now f) (minWait now (g :: gs)) with hle | hle
        · refine ⟨f, by simp, ?_⟩
          show waitTime now f = min (waitTime now f) (minWait now (g :: gs))
          exact (min_eq_left hle).symm
        · refine ⟨g0, List.mem_cons_of_mem f hg0, ?_⟩
          show waitTime now g0 = min (waitTime now f) (minWait now (g :: gs))
          rw [min_eq_right hle, hw]

theorem mkItem_index (f : FutSt β) : (mkItem f).index = f.idx := by
  cases h : f.fetch <;> simp [mkItem, h]

theorem pollOne_cases (cfg : EngCfg) (now : ℚ) (f : FutSt β)
    (hdone : f.doneFlag = false) :
    (¬ readyF now f ∧ pollOne cfg now f = (f, none, false)) ∨
    (readyF now f ∧ f.polls = 0 ∧
      pollOne cfg now f
        = ({ f with doneFlag := true }, some (mkItem f), true)) ∨
    (∃ p, readyF now f ∧ f.polls = p + 1 ∧
      pollOne cfg now f
        = ({ f with
              polls := p, lastPollTime := now,
              pollInterval :=
                min (f.pollInterval * cfg.backoffFactor) cfg.maxInterval },
           none, false)) := by
  by_cases hr : readyF now f
  · rcases hp : f.polls with _ | p
    · refine Or.inr (Or.inl ⟨hr, rfl, ?_⟩)
      simp only [pollOne, readyF] at *
      rw [if_pos hr, hdone, hp]
      cases hf : f.fetch <;> simp [mkItem, hf, hp]
    · refine Or.inr (Or.inr ⟨p, hr, rfl, ?_⟩)
      simp only [pollOne, readyF] at *
      rw [if_pos hr, hdone, hp]
      simp
  · refine Or.inl ⟨hr, ?_⟩
    simp only [pollOne, readyF] at *
    rw [if_neg hr]

/-- What one poll phase does to the active list: keys are preserved in
place; the yielded items' indices together with the surviving (reaped-away)
futures' indices are a permutation of the visited indices; surviving futures
stay coherent with their originals; the termination weight drops by exactly
2 per completion and per 404; and when nothing completed and nothing was
polled, the phase was a no-op because no future was due. -/
theorem pollPhase_spec (cfg : EngCfg) (now : ℚ) :
    ∀ (l l' : List (FutSt β)) (ks : List String) (its : List (BatchItemM β)),
      pollPhase cfg now l = (l', ks, its) →
      (∀ f ∈ l, f.doneFlag = false) →
      (l.map FutSt.key).Nodup →
      ∃ c404 : ℕ,
        l'.map FutSt.key = l.map FutSt.key ∧
        ((its.map BatchItemM.index
            ++ (l'.filter (fun g => g.key ∉ ks)).map FutSt.idx).Perm
          (l.map FutSt.idx)) ∧
        (∀ g ∈ l'.filter (fun g => g.key ∉ ks),
          ∃ f ∈ l, g.key = f.key ∧ g.idx = f.idx ∧ g.fetch = f.fetch
            ∧ g.polls ≤ f.polls ∧ g.doneFlag = false) ∧
        futsum (l'.filter (fun g => g.key ∉ ks)) + 2 * its.length + 2 * c404
          = futsum l ∧
        (∀ k ∈ ks, k ∈ l.map FutSt.key) ∧
        (its.length = 0 ∧ c404 = 0 →
          l' = l ∧ ks = [] ∧ ∀ f ∈ l, ¬ readyF now f) := by
  intro l
  induction l with
  | nil =>
      intro l' ks its heq _ _
      simp only [pollPhase, Prod.mk.injEq] at heq
      obtain ⟨h1, h2, h3⟩ := heq
      subst h1
      subst h2
      subst h3
      exact ⟨0, by simp, by simp, by simp, by simp [futsum], by simp,
        fun _ => ⟨rfl, rfl, by simp⟩⟩
  | cons f fs ih =>
      intro l' ks its heq hdone hnodup
      have hdf : f.doneFlag = false := hdone f (by simp)
      have hdfs : ∀ g ∈ fs, g.doneFlag = false := fun g hg =>
        hdone g (List.mem_cons_of_mem f hg)
      have hnd2 : (fs.map FutSt.key).Nodup := (List.nodup_cons.mp hnodup).2
      have hknotin : f.key ∉ fs.map FutSt.key := (List.nodup_cons.mp hnodup).1
      rcases hrec : pollPhase cfg now fs with ⟨rl, rks, rits⟩
      obtain ⟨c404, hkeys, hperm, hcoh, hsum, hks, hnoprog⟩ :=
        ih rl rks rits hrec hdfs hnd2
      have hksfs : ∀ k ∈ rks, k ∈ fs.map FutSt.key := hks
      rcases pollOne_cases cfg now f hdf with ⟨hnr, hpo⟩ | ⟨hr, hp0, hpo⟩
        | ⟨p, hr, hp1, hpo⟩
      · -- not ready: the future is skipped untouched
        have hcons : pollPhase cfg now (f :: fs) = (f :: rl, rks, rits) := by
          simp [pollPhase, hpo, hrec]
        rw [hcons, Prod.mk.injEq, Prod.mk.injEq] at heq
        obtain ⟨h1, h2, h3⟩ := heq
        subst h1
        subst h2
        subst h3
        have hfk : f.key ∉ rks := fun hin => hknotin (hksfs _ hin)
        have hfilter : (f :: rl).filter (fun g => g.key ∉ rks)
            = f :: rl.filter (fun g => g.key ∉ rks) := by
          rw [List.filter_cons_of_pos]
          simpa using hfk
        refine ⟨c404, by simp [hkeys], ?_, ?_, ?_, ?_, ?_⟩
        · rw [hfilter]
          simp only [List.map_cons]
          exact List.Perm.trans List.perm_middle (hperm.cons f.idx)
        · rw [hfilter]
          intro g hg
          obtain he | hg' := List.mem_cons.mp hg
          · exact ⟨f, by simp, by simp [he], by simp [he], by simp [he],
              by simp [he], by simp [he, hdf]⟩
          · obtain ⟨f0, hf0, hprops⟩ := hcoh g hg'
            exact ⟨f0, List.mem_cons_of_mem f hf0, hprops⟩
        · rw [hfilter]
          simp only [futsum, List.map_cons, List.sum_cons] at hsum ⊢
          omega
        · intro k hk
          exact List.mem_cons_of_mem _ (hksfs k hk)
        · intro hz
          obtain ⟨he1, he2, he3⟩ := hnoprog hz
          subst he1
          subst he2
          exact ⟨rfl, rfl, fun g hg => by
            rcases List.mem_cons.mp hg with rfl | hg'
            · exact hnr
            · exact he3 g hg'⟩
      · -- ready and HEAD succeeds: completed, one item yielded
        have hcons : pollPhase cfg now (f :: fs)
            = (({ f with doneFlag := true } : FutSt β) :: rl,
               f.key :: rks, mkItem f :: rits) := by
          simp [pollPhase, hpo, hrec]
        rw [hcons, Prod.mk.injEq, Prod.mk.injEq] at heq
        obtain ⟨h1, h2, h3⟩ := heq
        subst h1
        subst h2
        subst h3
        have hfk : f.key ∉ rks := fun hin => hknotin (hksfs _ hin)
        have hfk2 : ({ f with doneFlag := true } : FutSt β).key
            ∈ ({ f with doneFlag := true } : FutSt β).key :: rks := by simp
        have hfilter : (({ f with doneFlag := true } : FutSt β) :: rl).filter
              (fun g => g.key ∉ ({ f with doneFlag := true } : FutSt β).key :: rks)
            = rl.filter (fun g => g.key ∉ rks) := by
          rw [List.filter_cons_of_neg (by simp)]
          apply List.filter_congr
          intro g hg
          have hgk : g.key ∈ fs.map FutSt.key := by
            rw [← hkeys]
            exact List.mem_map_of_mem FutSt.key hg
          have hgne : g.key ≠ f.key := fun he => hknotin (he ▸ hgk)
          simp [hgne]
        refine ⟨c404, by simp [hkeys], ?_, ?_, ?_, ?_, ?_⟩
        · rw [hfilter]
          simp only [List.map_cons, mkItem_index, List.cons_append]
          exact hperm.cons f.idx
        · rw [hfilter]
          intro g hg
          obtain ⟨f0, hf0, hprops⟩ := hcoh g hg
          exact ⟨f0, List.mem_cons_of_mem f hf0, hprops⟩
        · rw [hfilter]
          simp only [futsum, List.map_cons, List.sum_cons, List.length_cons,
            futW] at hsum ⊢
          omega
        · intro k hk
          rcases List.mem_cons.mp hk with rfl | hk'
          · simp
          · exact List.mem_cons_of_mem _ (hksfs k hk')
        · intro hz
          simp at hz
      · -- ready and 404: backoff applied, future kept
        have hcons : pollPhase cfg now (f :: fs)
            = (({ f with
                  polls := p, lastPollTime := now,
                  pollInterval :=
                    min (f.pollInterval * cfg.backoffFactor)
                      cfg.maxInterval } : FutSt β) :: rl,
               rks, rits) := by
          simp [pollPhase, hpo, hrec]
        rw [hcons, Prod.mk.injEq, Prod.mk.injEq] at heq
        obtain ⟨h1, h2, h3⟩ := heq
        subst h1
        subst h2
        subst h3
        have hfk : f.key ∉ rks := fun hin => hknotin (hksfs _ hin)
        have hfilter : (({ f with
              polls := p, lastPollTime := now,
              pollInterval :=
                min (f.pollInterval * cfg.backoffFactor) cfg.maxInterval } :
                FutSt β) :: rl).filter (fun g => g.key ∉ rks)
            = ({ f with
                  polls := p, lastPollTime := now,
                  pollInterval :=
                    min (f.pollInterval * cfg.backoffFactor)
                      cfg.maxInterval } : FutSt β)
                :: rl.filter (fun g => g.key ∉ rks) := by
          rw [List.filter_cons_of_pos]
          simpa using hfk
        refine ⟨c404 + 1, by simp [hkeys], ?_, ?_, ?_, ?_, ?_⟩
        · rw [hfilter]
          simp only [List.map_cons]
          exact List.Perm.trans List.perm_middle (hperm.cons f.idx)
        · rw [hfilter]
          intro g hg
          obtain he | hg' := List.mem_cons.mp hg
          · refine ⟨f, by simp, by simp [he], by simp [he], by simp [he],
              ?_, by simp [he, hdf]⟩
            rw [he]
            show p ≤ f.polls
            omega
          · obtain ⟨f0, hf0, hprops⟩ := hcoh g hg'
            exact ⟨f0, List.mem_cons_of_mem f hf0, hprops⟩
        · rw [hfilter]
          have hpp : ({ f with
              polls := p, lastPollTime := now,
              pollInterval :=
                min (f.pollInterval * cfg.backoffFactor)
                  cfg.maxInterval } : FutSt β).polls = p := rfl
          simp only [futsum, List.map_cons, List.sum_cons, futW, hpp] at hsum ⊢
          omega
        · intro k hk
          exact List.mem_cons_of_mem _ (hksfs k hk)
        · intro hz
          omega

/-- What the fill phase does: it dequeues a prefix of the pending queue,
converting each entry into either an immediately-yielded submission-failure
item or a freshly-submitted coherent future appended to the active dict
(result keys are fresh, so the dict insert is an append); the processed,
still-pending and newly-active indices are jointly a permutation of the
queue; the termination weight drops by one per processed entry; and the
phase is a no-op exactly when the queue is empty or the concurrency bound
blocks the first submission. -/
theorem fillGo_spec (cfg : EngCfg) (env : ℕ → SubmitOutcome β) (N : ℕ)
    (hinj : KeysInj env N) :
    ∀ (pend : List (ℕ × α)) (s : EngSt α β),
      s.pending = [] →
      (pend.map Prod.fst ++ s.active.map FutSt.idx).Nodup →
      (∀ x ∈ pend.map Prod.fst ++ s.active.map FutSt.idx, x < N) →
      (∀ f ∈ s.active, ∃ p0,
        env f.idx = SubmitOutcome.accepted f.key p0 f.fetch
          ∧ f.polls ≤ p0 ∧ f.doneFlag = false) →
      ∃ (nowF litF : ℚ) (items : List (BatchItemM β))
        (futs : List (FutSt β)) (leftover : List (ℕ × α)),
        fillGo cfg env pend s
          = ⟨nowF, litF, leftover, s.active ++ futs, s.out ++ items⟩ ∧
        ((items.map BatchItemM.index ++ leftover.map Prod.fst
            ++ futs.map FutSt.idx).Perm (pend.map Prod.fst)) ∧
        (∀ f ∈ futs,
          env f.idx = SubmitOutcome.accepted f.key f.polls f.fetch
            ∧ f.doneFlag = false) ∧
        (wsum env leftover + futsum futs + items.length + futs.length
          = wsum env pend) ∧
        (items = [] ∧ futs = [] ∧ leftover = pend ∧ nowF = s.now
            ∧ litF = s.lastInvokeTime
            ∧ (pend = [] ∨ ¬ ((s.active.length : ℤ) < cfg.maxConcurrent))
          ∨ 1 ≤ items.length + futs.length) := by
  intro pend
  induction pend with
  | nil =>
      intro s hpend0 _ _ _
      refine ⟨s.now, s.lastInvokeTime, [], [], [], ?_, by simp, by simp,
        by simp [wsum, futsum], Or.inl ⟨rfl, rfl, rfl, rfl, rfl, Or.inl rfl⟩⟩
      show s = _
      rw [List.append_nil, List.append_nil, ← hpend0]
  | cons hd rest ih =>
      rcases hd with ⟨i, p⟩
      intro s hpend0 hnodup hrange hcoh
      have h0 : (i :: (rest.map Prod.fst ++ s.active.map FutSt.idx)).Nodup := by
        simpa using hnodup
      have hinot : i ∉ rest.map Prod.fst ++ s.active.map FutSt.idx :=
        (List.nodup_cons.mp h0).1
      have htail : (rest.map Prod.fst ++ s.active.map FutSt.idx).Nodup :=
        (List.nodup_cons.mp h0).2
      have hrange' : ∀ x ∈ rest.map Prod.fst ++ s.active.map FutSt.idx, x < N := by
        intro x hx
        refine hrange x ?_
        have : x ∈ i :: (rest.map Prod.fst ++ s.active.map FutSt.idx) :=
          List.mem_cons_of_mem i hx
        simpa using this
      have hiN : i < N := hrange i (by simp)
      by_cases hguard : ((s.active.length : ℤ) < cfg.maxConcurrent)
      · rcases henv : env i with e | ⟨k, polls, fetch⟩
        · -- the submission raises: yield a failure item and continue
          have hstep : fillGo cfg env ((i, p) :: rest) s
              = fillGo cfg env rest
                  { tpsAdvance cfg s with
                      out := (tpsAdvance cfg s).out
                        ++ [⟨false, none, some e, i⟩] } := by
            simp only [fillGo]
            rw [if_pos hguard, henv]
          obtain ⟨nowF, litF, items, futs, leftover, heq, hperm, hfuts, hw,
              _⟩ :=
            ih { tpsAdvance cfg s with
                  out := (tpsAdvance cfg s).out ++ [⟨false, none, some e, i⟩] }
              (by simp [tpsAdvance, hpend0])
              (by exact htail)
              (by exact hrange')
              (by exact hcoh)
          refine ⟨nowF, litF, ⟨false, none, some e, i⟩ :: items, futs,
            leftover, ?_, ?_, hfuts, ?_,
            Or.inr (by simp only [List.length_cons]; omega)⟩
          · rw [hstep, heq]
            simp [tpsAdvance]
          · simp only [List.map_cons, List.cons_append]
            exact hperm.cons i
          · simp only [wsum, List.map_cons, List.sum_cons, henv, wOf,
              List.length_cons] at hw ⊢
            omega
        · -- the submission is accepted: append a fresh future
          have hfreshkey : ∀ g ∈ s.active, g.key ≠ k := by
            intro g hg hk
            obtain ⟨p0, hg1, _, _⟩ := hcoh g hg
            have hgmem : g.idx ∈ rest.map Prod.fst ++ s.active.map FutSt.idx :=
              List.mem_append_right _ (List.mem_map_of_mem FutSt.idx hg)
            have hne : i ≠ g.idx := fun he => hinot (he ▸ hgmem)
            have hgN : g.idx < N := hrange' g.idx hgmem
            exact hinj i (List.mem_range.mpr hiN) g.idx
              (List.mem_range.mpr hgN) hne k
              (by simp [acceptedKey, henv])
              (by simp [acceptedKey, hg1, hk])
          have hins : dictSetFut (tpsAdvance cfg s).active
              (⟨k, i, polls, fetch, false, cfg.initialInterval, 0⟩ : FutSt β)
              = (tpsAdvance cfg s).active
                ++ [⟨k, i, polls, fetch, false, cfg.initialInterval, 0⟩] :=
            dictSetFut_append _ _ hfreshkey
          have hstep : fillGo cfg env ((i, p) :: rest) s
              = fillGo cfg env rest
                  { tpsAdvance cfg s with
                      active := (tpsAdvance cfg s).active
                        ++ [⟨k, i, polls, fetch, false,
                              cfg.initialInterval, 0⟩] } := by
            have h1 : fillGo cfg env ((i, p) :: rest) s
                = fillGo cfg env rest
                    { tpsAdvance cfg s with
                        active := dictSetFut (tpsAdvance cfg s).active
                          (⟨k, i, polls, fetch, false,
                            cfg.initialInterval, 0⟩ : FutSt β) } := by
              simp only [fillGo]
              rw [if_pos hguard, henv]
            rw [h1, hins]
          have hact2 : ({ tpsAdvance cfg s with
              active := (tpsAdvance cfg s).active
                ++ [⟨k, i, polls, fetch, false, cfg.initialInterval, 0⟩] } :
                EngSt α β).active.map FutSt.idx
              = s.active.map FutSt.idx ++ [i] := by
            simp [tpsAdvance]
          have hnodup1 : (rest.map Prod.fst
              ++ (s.active.map FutSt.idx ++ [i])).Nodup := by
            have hp2 : (rest.map Prod.fst ++ (s.active.map FutSt.idx ++ [i])).Perm
                (i :: (rest.map Prod.fst ++ s.active.map FutSt.idx)) := by
              rw [← List.append_assoc]
              simpa using
                (@List.perm_middle _ i
                  (rest.map Prod.fst ++ s.active.map FutSt.idx) [])
            exact hp2.nodup_iff.mpr h0
          obtain ⟨nowF, litF, items, futs, leftover, heq, hperm, hfuts, hw,
              _⟩ :=
            ih { tpsAdvance cfg s with
                  active := (tpsAdvance cfg s).active
                    ++ [⟨k, i, polls, fetch, false, cfg.initialInterval, 0⟩] }
              (by simp [tpsAdvance, hpend0])
              (by rw [hact2]; exact hnodup1)
              (by
                rw [hact2]
                intro x hx
                rcases List.mem_append.mp hx with hx1 | hx2
                · exact hrange' x (List.mem_append_left _ hx1)
                · rcases List.mem_append.mp hx2 with hx3 | hx4
                  · exact hrange' x (List.mem_append_right _ hx3)
                  · have : x = i := by simpa using hx4
                    exact this ▸ hiN)
              (by
                intro g hg
                rcases List.mem_append.mp hg with hg1 | hg2
                · exact hcoh g hg1
                · have : g = ⟨k, i, polls, fetch, false,
                      cfg.initialInterval, 0⟩ := by simpa using hg2
                  subst this
                  exact ⟨polls, by simpa using henv, le_rfl, rfl⟩)
          refine ⟨nowF, litF, items,
            (⟨k, i, polls, fetch, false, cfg.initialInterval, 0⟩ : FutSt β)
              :: futs, leftover, ?_, ?_, ?_, ?_,
            Or.inr (by simp only [List.length_cons]; omega)⟩
          · rw [hstep, heq]
            simp [tpsAdvance]
          · simp only [List.map_cons]
            exact List.Perm.trans List.perm_middle (hperm.cons i)
          · intro g hg
            rcases List.mem_cons.mp hg with he | hg'
            · subst he
              exact ⟨by simpa using henv, rfl⟩
            · exact hfuts g hg'
          · have hfw : futW (⟨k, i, polls, fetch, false,
                cfg.initialInterval, 0⟩ : FutSt β) = 2 * polls + 2 := rfl
            simp only [wsum, futsum, List.map_cons, List.sum_cons, henv,
              wOf, List.length_cons, hfw] at hw ⊢
            omega
      · -- the concurrency bound blocks the first submission: no-op
        have hstep : fillGo cfg env ((i, p) :: rest) s
            = { s with pending := (i, p) :: rest } := by
          simp only [fillGo]
          rw [if_neg hguard]
        refine ⟨s.now, s.lastInvokeTime, [], [], (i, p) :: rest, ?_,
          by simp, by simp, by simp [futsum],
          Or.inl ⟨rfl, rfl, rfl, rfl, rfl, Or.inr hguard⟩⟩
        rw [hstep]
        simp


/-- One non-final engine iteration preserves the loop invariant and strictly
decreases the potential, provided `max_concurrent` admits at least one
session and result keys are distinct. -/
theorem engineStep_spec (cfg : EngCfg) (env : ℕ → SubmitOutcome β) (N : ℕ)
    (hinj : KeysInj env N) (hmc : 1 ≤ cfg.maxConcurrent)
    (s : EngSt α β) (hInv : Inv env N s)
    (hne : ¬ (s.pending = [] ∧ s.active = [])) :
    Inv env N (engineStep cfg env s)
      ∧ engPot env (engineStep cfg env s) < engPot env s := by
  obtain ⟨hperm0, hcoh0⟩ := hInv
  have hndAll : (s.out.map BatchItemM.index ++ s.pending.map Prod.fst
      ++ s.active.map FutSt.idx).Nodup :=
    hperm0.nodup_iff.mpr (List.nodup_range N)
  have hndPA : (s.pending.map Prod.fst ++ s.active.map FutSt.idx).Nodup := by
    rw [List.append_assoc] at hndAll
    exact hndAll.of_append_right
  have hrangeAll : ∀ x ∈ s.pending.map Prod.fst ++ s.active.map FutSt.idx,
      x < N := by
    intro x hx
    have hx2 : x ∈ s.out.map BatchItemM.index
        ++ (s.pending.map Prod.fst ++ s.active.map FutSt.idx) :=
      List.mem_append_right _ hx
    rw [← List.append_assoc] at hx2
    exact List.mem_range.mp (hperm0.mem_iff.mp hx2)
  obtain ⟨nowF, litF, items, futs, leftover, hfillEq, hfillPerm, hfillCoh,
      hfillW, hfillDisj⟩ :=
    fillGo_spec cfg env N hinj s.pending { s with pending := [] } rfl
      hndPA hrangeAll hcoh0
  -- joint permutation after the fill phase
  have hperm1 : ((s.out.map BatchItemM.index ++ items.map BatchItemM.index)
      ++ leftover.map Prod.fst
      ++ (s.active.map FutSt.idx ++ futs.map FutSt.idx)).Perm
      (List.range N) := by
    rw [← Multiset.coe_eq_coe] at hperm0 hfillPerm ⊢
    simp only [← Multiset.coe_add] at hperm0 hfillPerm ⊢
    rw [← hperm0, ← hfillPerm]
    abel
  have hndAll1 : ((s.out.map BatchItemM.index ++ items.map BatchItemM.index)
      ++ leftover.map Prod.fst
      ++ (s.active.map FutSt.idx ++ futs.map FutSt.idx)).Nodup :=
    hperm1.nodup_iff.mpr (List.nodup_range N)
  have hndAF : ((s.active ++ futs).map FutSt.idx).Nodup := by
    rw [List.append_assoc] at hndAll1
    rw [List.map_append]
    exact hndAll1.of_append_right.of_append_right
  have hrangeAF : ∀ x ∈ (s.active ++ futs).map FutSt.idx, x < N := by
    intro x hx
    rw [List.map_append] at hx
    have hx2 : x ∈ (s.out.map BatchItemM.index ++ items.map BatchItemM.index)
        ++ (leftover.map Prod.fst
          ++ (s.active.map FutSt.idx ++ futs.map FutSt.idx)) :=
      List.mem_append_right _ (List.mem_append_right _ hx)
    rw [← List.append_assoc] at hx2
    exact List.mem_range.mp (hperm1.mem_iff.mp hx2)
  have hcohAF : ∀ f ∈ s.active ++ futs, ∃ p0,
      env f.idx = SubmitOutcome.accepted f.key p0 f.fetch
        ∧ f.polls ≤ p0 ∧ f.doneFlag = false := by
    intro f hf
    rcases List.mem_append.mp hf with h | h
    · exact hcoh0 f h
    · exact ⟨f.polls, (hfillCoh f h).1, le_rfl, (hfillCoh f h).2⟩
  have hdoneAF : ∀ f ∈ s.active ++ futs, f.doneFlag = false := by
    intro f hf
    obtain ⟨p0, _, _, hd⟩ := hcohAF f hf
    exact hd
  -- distinct result keys in the combined active dict
  have hndKeyAF : ((s.active ++ futs).map FutSt.key).Nodup := by
    have hmap1 : ((s.active ++ futs).map FutSt.idx).map (acceptedKey env)
        = (s.active ++ futs).map (fun f => acceptedKey env f.idx) :=
      List.map_map (acceptedKey env) FutSt.idx (s.active ++ futs)
    have hmap2 : (s.active ++ futs).map (fun f => acceptedKey env f.idx)
        = (s.active ++ futs).map (fun f => some f.key) := by
      apply List.map_congr_left
      intro f hf
      obtain ⟨p0, he, _, _⟩ := hcohAF f hf
      simp [acceptedKey, he]
    have h1 : (((s.active ++ futs).map FutSt.idx).map
        (acceptedKey env)).Nodup := by
      apply List.Nodup.map_on ?_ hndAF
      intro x hx y hy hxy
      by_contra hxyne
      obtain ⟨fx, hfx, hfxi⟩ := List.mem_map.mp hx
      obtain ⟨fy, hfy, hfyi⟩ := List.mem_map.mp hy
      obtain ⟨px, hex, _, _⟩ := hcohAF fx hfx
      obtain ⟨py, hey, _, _⟩ := hcohAF fy hfy
      have hkx : acceptedKey env x = some fx.key := by
        rw [← hfxi]
        simp [acceptedKey, hex]
      have hky : acceptedKey env y = some fy.key := by
        rw [← hfyi]
        simp [acceptedKey, hey]
      have hkk : fx.key = fy.key := by
        have := hkx ▸ hky ▸ hxy
        simpa using this
      exact hinj x (List.mem_range.mpr (hrangeAF x hx)) y
        (List.mem_range.mpr (hrangeAF y hy)) hxyne fx.key hkx
        (hkk ▸ hky)
    rw [hmap1, hmap2] at h1
    have h2 : (((s.active ++ futs).map FutSt.key).map some).Nodup := by
      rw [List.map_map]
      exact h1
    exact h2.of_map
  rcases hpoll : pollPhase cfg nowF (s.active ++ futs) with ⟨l2, ks, its⟩
  obtain ⟨c404, hpk, hpperm, hpcoh, hpsum, hpks, hpnp⟩ :=
    pollPhase_spec cfg nowF (s.active ++ futs) l2 ks its hpoll hdoneAF hndKeyAF
  -- the state after fill, poll and reap (its wall clock varies by branch)
  have hInvFinal : ∀ t : ℚ, Inv env N
      (⟨t, litF, leftover, l2.filter (fun g => g.key ∉ ks),
        (s.out ++ items) ++ its⟩ : EngSt α β) := by
    intro t
    constructor
    · show (((s.out ++ items) ++ its).map BatchItemM.index
        ++ leftover.map Prod.fst
        ++ (l2.filter (fun g => g.key ∉ ks)).map FutSt.idx).Perm (List.range N)
      rw [← Multiset.coe_eq_coe] at hperm1 hpperm ⊢
      simp only [List.map_append, ← Multiset.coe_add] at hperm1 hpperm ⊢
      rw [← hperm1, ← hpperm]
      abel
    · intro g hg
      obtain ⟨f, hf, hk, hi, hfe, hp, hd⟩ := hpcoh g hg
      obtain ⟨p0, he, hple, _⟩ := hcohAF f hf
      exact ⟨p0, by rw [hk, hi, hfe]; exact he, le_trans hp hple, hd⟩
  -- measure bookkeeping
  have hfutsumAF : futsum (s.active ++ futs) = futsum s.active + futsum futs := by
    simp [futsum]
  have hmeasure : wsum env leftover + futsum (l2.filter (fun g => g.key ∉ ks))
      + (items.length + futs.length) + 2 * its.length + 2 * c404
      = engMeasure env s := by
    show _ = wsum env s.pending + futsum s.active
    omega
  have hpotBound : ∀ t : ℚ,
      engPot env (⟨t, litF, leftover, l2.filter (fun g => g.key ∉ ks),
        (s.out ++ items) ++ its⟩ : EngSt α β)
        ≤ 2 * (wsum env leftover
            + futsum (l2.filter (fun g => g.key ∉ ks))) + 1 := by
    intro t
    unfold engPot engMeasure readyBit
    dsimp only
    split <;> omega
  have hpotLow : 2 * engMeasure env s ≤ engPot env s := by
    unfold engPot
    omega
  -- the concrete form of the step
  have hstepEq : engineStep cfg env s
      = (if (l2.filter (fun g => g.key ∉ ks)).isEmpty = false ∧ ks.isEmpty then
          (if 0 < minWait nowF (l2.filter (fun g => g.key ∉ ks)) then
            (⟨nowF + minWait nowF (l2.filter (fun g => g.key ∉ ks)), litF,
              leftover, l2.filter (fun g => g.key ∉ ks),
              (s.out ++ items) ++ its⟩ : EngSt α β)
          else ⟨nowF, litF, leftover, l2.filter (fun g => g.key ∉ ks),
            (s.out ++ items) ++ its⟩)
        else ⟨nowF, litF, leftover, l2.filter (fun g => g.key ∉ ks),
          (s.out ++ items) ++ its⟩) := by
    simp only [engineStep, hfillEq, hpoll]
  by_cases hprog : 1 ≤ items.length + futs.length + its.length + c404
  · -- some entry was submitted, yielded, completed or 404-polled
    have hdrop : wsum env leftover
        + futsum (l2.filter (fun g => g.key ∉ ks)) + 1
        ≤ engMeasure env s := by omega
    have hlt : ∀ t : ℚ,
        engPot env (⟨t, litF, leftover, l2.filter (fun g => g.key ∉ ks),
          (s.out ++ items) ++ its⟩ : EngSt α β) < engPot env s := by
      intro t
      have h1 := hpotBound t
      omega
    rw [hstepEq]
    split_ifs with h1 h2
    · exact ⟨hInvFinal _, hlt _⟩
    · exact ⟨hInvFinal _, hlt _⟩
    · exact ⟨hInvFinal _, hlt _⟩
  · -- nothing at all happened: the engine must sleep, and the sleep wakes
    -- the future with the nearest deadline
    have hz : items.length + futs.length + its.length + c404 = 0 := by omega
    have hfd := hfillDisj.resolve_right (by omega)
    obtain ⟨hitems, hfuts, hleft, hnowF, hlitF, hstall⟩ := hfd
    subst hitems
    subst hfuts
    subst hleft
    subst hnowF
    subst hlitF
    obtain ⟨hl2, hks, hnr⟩ := hpnp ⟨by omega, by omega⟩
    rw [List.append_nil] at hl2
    subst hl2
    subst hks
    rw [List.append_nil] at hnr
    have hane : s.active ≠ [] := by
      intro ha
      rcases hstall with hp | hg
      · exact hne ⟨hp, ha⟩
      · rw [ha] at hg
        simp at hg
        omega
    have hre : s.active.filter (fun g => g.key ∉ ([] : List String))
        = s.active :=
      List.filter_eq_self.mpr (by intro a _; simp)
    rw [hre] at hstepEq hmeasure hpotBound hInvFinal
    have hcond : s.active.isEmpty = false ∧ ([] : List String).isEmpty := by
      constructor
      · rcases hact : s.active with _ | _
        · exact absurd hact hane
        · simp
      · rfl
    rw [if_pos hcond] at hstepEq
    -- the minimum wait is positive, else some future were already due
    obtain ⟨f0, hf0, hw0⟩ := minWait_attained s.now s.active hane
    have hmpos : 0 < minWait s.now s.active := by
      rcases lt_or_ge 0 (minWait s.now s.active) with h | h
      · exact h
      · exfalso
        have hge : 0 ≤ waitTime s.now f0 := le_max_left 0 _
        have hle : waitTime s.now f0 ≤ 0 := by
          rw [hw0]
          exact h
        have heq0 : waitTime s.now f0 = 0 := le_antisymm hle hge
        have hready : readyF s.now f0 := by
          unfold waitTime at heq0
          unfold readyF
          by_contra hnready
          push_neg at hnready
          have hx : 0 < f0.pollInterval - (s.now - f0.lastPollTime) := by
            linarith
          rw [max_eq_right (le_of_lt hx)] at heq0
          linarith
        exact hnr f0 hf0 hready
    rw [if_pos hmpos] at hstepEq
    rw [hstepEq]
    refine ⟨hInvFinal _, ?_⟩
    have hready1 : readyF (s.now + minWait s.now s.active) f0 := by
      have hpos : 0 < waitTime s.now f0 := by
        rw [hw0]
        exact hmpos
      have hxeq : f0.pollInterval - (s.now - f0.lastPollTime)
          = waitTime s.now f0 := by
        unfold waitTime at hpos ⊢
        rcases le_or_lt (f0.pollInterval - (s.now - f0.lastPollTime)) 0
          with hx | hx
        · rw [max_eq_left hx] at hpos
          linarith
        · exact (max_eq_right (le_of_lt hx)).symm
      rw [hw0] at hxeq
      unfold readyF
      linarith
    have hanyOld : s.active.any (fun f => decide (readyF s.now f)) = false := by
      rw [List.any_eq_false]
      intro f hf
      simpa using hnr f hf
    have hanyNew : s.active.any (fun f =>
        decide (readyF (s.now + minWait s.now s.active) f)) = true := by
      rw [List.any_eq_true]
      exact ⟨f0, hf0, by simpa using hready1⟩
    unfold engPot engMeasure readyBit
    dsimp only
    rw [hanyOld, hanyNew]
    simp

end BatchResult

namespace BatchResult

/-- With fuel exceeding the potential, the engine loop of `__iter__`
terminates and the invariant transfers to the final yield list: its indices
are a permutation of `range N`. -/
theorem engineRun_spec (cfg : EngCfg) (env : ℕ → SubmitOutcome β) (N : ℕ)
    (hinj : KeysInj env N) (hmc : 1 ≤ cfg.maxConcurrent) :
    ∀ (n : ℕ) (s : EngSt α β), Inv env N s → engPot env s < n →
      ∃ out, engineRun cfg env n s = some out
        ∧ (out.map BatchItemM.index).Perm (List.range N) := by
  intro n
  induction n with
  | zero =>
      intro s _ h
      omega
  | succ n ih =>
      intro s hInv hpot
      by_cases hfin : (s.pending.isEmpty && s.active.isEmpty) = true
      · refine ⟨s.out, ?_, ?_⟩
        · rw [engineRun, if_pos hfin]
        · have hp : s.pending = [] := by
            rcases hpp : s.pending with _ | _
            · rfl
            · rw [hpp] at hfin
              simp at hfin
          have ha : s.active = [] := by
            rcases hpp : s.active with _ | _
            · rfl
            · rw [hpp] at hfin
              simp at hfin
          have hperm := hInv.perm
          rw [hp, ha] at hperm
          simpa using hperm
      · have hne : ¬ (s.pending = [] ∧ s.active = []) := by
          rintro ⟨h1, h2⟩
          apply hfin
          rw [h1, h2]
          rfl
        obtain ⟨hInv2, hdec⟩ := engineStep_spec cfg env N hinj hmc s hInv hne
        obtain ⟨out, hrun, hperm⟩ := ih (engineStep cfg env s) hInv2 (by omega)
        refine ⟨out, ?_, hperm⟩
        rw [engineRun, if_neg hfin]
        exact hrun

end BatchResult

section ClaimC2

/-- C2: for every payload list of length `N` (including `N = 0`), every
per-payload outcome (submission raises, or the accepted submission's object
appears after finitely many 404s and the fetch succeeds or fails), every
distinct-key environment, every starting clock and every configuration
admitting at least one concurrent session, iterating the `BatchResult`
terminates and yields exactly `N` `BatchItem`s whose `index` fields are
pairwise distinct and all lie in `[0, N)`; the empty payload list terminates
immediately with zero yields. -/
theorem c2_batch_yields_each_index_once :
    ∀ (α β : Type) (cfg : BatchResult.EngCfg)
      (env : ℕ → BatchResult.SubmitOutcome β) (t0 : ℚ) (payloads : List α),
      1 ≤ cfg.maxConcurrent →
      BatchResult.KeysInj env payloads.length →
      (∃ n out,
        BatchResult.engineRun cfg env n
            (BatchResult.engineInit t0 payloads) = some out ∧
        out.length = payloads.length ∧
        (out.map BatchResult.BatchItemM.index).Nodup ∧
        (∀ it ∈ out, it.index < payloads.length)) ∧
      BatchResult.engineRun cfg env 0
          (BatchResult.engineInit t0 ([] : List α))
        = some ([] : List (BatchResult.BatchItemM β)) := by
  intro α β cfg env t0 payloads hmc hinj
  constructor
  · have hInv0 : BatchResult.Inv env payloads.length
        (BatchResult.engineInit t0 payloads : BatchResult.EngSt α β) := by
      constructor
      · show (([] : List (BatchResult.BatchItemM β)).map _
            ++ payloads.enum.map Prod.fst ++ ([] : List _).map _).Perm _
        simp [List.enum_map_fst]
      · intro f hf
        simp [BatchResult.engineInit] at hf
    obtain ⟨out, hrun, hperm⟩ :=
      BatchResult.engineRun_spec cfg env payloads.length hinj hmc
        (BatchResult.engPot env
          (BatchResult.engineInit t0 payloads : BatchResult.EngSt α β) + 1)
        (BatchResult.engineInit t0 payloads) hInv0 (by omega)
    refine ⟨_, out, hrun, ?_, ?_, ?_⟩
    · have := hperm.length_eq
      simpa using this
    · exact hperm.nodup_iff.mpr (List.nodup_range _)
    · intro it hit
      have : it.index ∈ out.map BatchResult.BatchItemM.index :=
        List.mem_map_of_mem _ hit
      exact List.mem_range.mp (hperm.mem_iff.mp this)
  · rfl

/-- Witness for `c2_batch_yields_each_index_once`: a two-payload batch with
one success and one fetch failure, distinct keys, `max_concurrent = 1`. -/
theorem c2_batch_yields_each_index_once_witness :
    (1 : ℤ) ≤ 1 ∧
    BatchResult.KeysInj
      (fun i => if i = 0 then
          BatchResult.SubmitOutcome.accepted "k0" 0 (Except.ok (1 : ℕ))
        else BatchResult.SubmitOutcome.accepted "k1" 1
          (Except.error "boom")) 2 ∧
    (∃ n out,
      BatchResult.engineRun (⟨1, 0, 1, 10, 2⟩ : BatchResult.EngCfg)
          (fun i => if i = 0 then
              BatchResult.SubmitOutcome.accepted "k0" 0 (Except.ok (1 : ℕ))
            else BatchResult.SubmitOutcome.accepted "k1" 1
              (Except.error "boom")) n
          (BatchResult.engineInit 0 [(10 : ℕ), 20]) = some out ∧
      out.length = [(10 : ℕ), 20].length ∧
      (out.map BatchResult.BatchItemM.index).Nodup ∧
      (∀ it ∈ out, it.index < [(10 : ℕ), 20].length)) :=
  ⟨le_refl 1,
   by
     intro i hi j hj hne k h1 h2
     fin_cases hi <;> fin_cases hj <;> simp_all [BatchResult.acceptedKey] <;>
       (subst h1; exact absurd h2 (by decide)),
   (c2_batch_yields_each_index_once ℕ ℕ ⟨1, 0, 1, 10, 2⟩ _ 0 [10, 20]
      (by decide)
      (by
        intro i hi j hj hne k h1 h2
        fin_cases hi <;> fin_cases hj <;>
            simp_all [BatchResult.acceptedKey] <;>
          (subst h1; exact absurd h2 (by decide)))).1⟩

end ClaimC2

namespace SpecBatch

/-- Modelled from the spec (§4.4): the batch engine of this repository with
per-job timeout support is not present under `src/` (only
`tests/test_client.py` exercises `run_batch(..., timeout=...)` and
`BatchItem.elapsed`); its configuration is the `BatchResult` parameters plus
the optional per-job `timeout`. -/
structure SCfg where
  maxConcurrent : ℤ
  minInvokeInterval : ℚ
  initialInterval : ℚ
  maxInterval : ℚ
  backoffFactor : ℚ
  timeout : Option ℚ

/-- One submission's behaviour: the runtime call raises, or it is accepted
with a result key whose object appears after `polls` 404s
(`polls = none`: it never appears) and whose GET parses or raises. -/
inductive SOutcome (β : Type) where
  | submitError (msg : String)
  | accepted (key : String) (polls : Option ℕ) (fetch : Except String β)

/-- An active future of the spec engine: identity, the submit time recorded
by the engine, the S3 behaviour, and the per-future backoff state
(spec §3, §4.3: `last_poll_time = 0` initially). -/
structure SFut (β : Type) where
  key : String
  idx : ℕ
  submitTime : ℚ
  polls : Option ℕ
  fetch : Except String β
  doneFlag : Bool
  pollInterval : ℚ
  lastPollTime : ℚ

/-- `BatchItem` with the `elapsed` field (spec §3): wall-clock seconds from
the submission attempt to the terminal state, `0` when submission itself
failed. -/
structure SItem (β : Type) where
  success : Bool
  result : Option β := none
  error : Option String := none
  index : ℕ
  elapsed : ℚ

/-- The spec engine state: wall clock, rate-limiter stamp, pending queue,
active futures, the count of `stop_session` calls issued by cancellation,
the ghost submission log (index, attempt time), and the ghost trace of
yielded items with their emission times (the yield sequence is
`trace.map Prod.fst`). -/
structure SSt (α β : Type) where
  now : ℚ
  lastInvokeTime : ℚ
  pending : List (ℕ × α)
  active : List (SFut β)
  stops : ℕ
  subLog : List (ℕ × ℚ)
  trace : List (SItem β × ℚ)

/-- The rate limiter (spec §4.1): sleep until `minInvokeInterval` has passed
since the previous acquire, then stamp. -/
def stps (cfg : SCfg) (s : SSt α β) : SSt α β :=
  let elapsed := s.now - s.lastInvokeTime
  let now' := if elapsed < cfg.minInvokeInterval then
      s.now + (cfg.minInvokeInterval - elapsed)
    else s.now
  { s with now := now', lastInvokeTime := now' }

/-- Dict insert keyed by result key, as in the source engine. -/
def sdictSet (l : List (SFut β)) (f : SFut β) : List (SFut β) :=
  if l.any (fun g => g.key = f.key) then
    l.map (fun g => if g.key = f.key then f else g)
  else l ++ [f]

/-- The fill phase (spec §4.4 step 1): submit while under the concurrency
bound; record the submit time on success, and on submission failure
immediately yield `BatchItem(success=false, index=i, error=str(e),
elapsed=0)`. -/
def sfill (cfg : SCfg) (env : ℕ → SOutcome β) :
    List (ℕ × α) → SSt α β → SSt α β
  | [], s => s
  | (i, p) :: rest, s =>
      if (s.active.length : ℤ) < cfg.maxConcurrent then
        let s1 := stps cfg s
        match env i with
        | SOutcome.submitError e =>
            sfill cfg env rest
              { s1 with
                  subLog := s1.subLog ++ [(i, s1.now)],
                  trace := s1.trace ++ [(⟨false, none, some e, i, 0⟩, s1.now)] }
        | SOutcome.accepted key polls fetch =>
            let fut : SFut β :=
              ⟨key, i, s1.now, polls, fetch, false, cfg.initialInterval, 0⟩
            sfill cfg env rest
              { s1 with
                  active := sdictSet s1.active fut,
                  subLog := s1.subLog ++ [(i, s1.now)] }
      else { s with pending := (i, p) :: rest }

/-- The item yielded when `result()` runs on a just-completed future
(spec §4.4 step 2): elapsed is measured from the submit time. -/
def smkItem (now : ℚ) (f : SFut β) : SItem β :=
  match f.fetch with
  | Except.ok r => ⟨true, some r, none, f.idx, now - f.submitTime⟩
  | Except.error e => ⟨false, none, some e, f.idx, now - f.submitTime⟩

/-- One poll visit (spec §4.3/§4.4 step 2): when due, `done()` runs; HEAD
success completes the future and yields, a 404 applies the capped backoff. -/
def spollOne (cfg : SCfg) (now : ℚ) (f : SFut β) :
    SFut β × Option (SItem β) × Bool :=
  if f.pollInterval ≤ now - f.lastPollTime then
    if f.doneFlag then (f, some (smkItem now f), true)
    else
      match f.polls with
      | some 0 =>
          let f2 := { f with doneFlag := true }
          (f2, some (smkItem now f2), true)
      | some (p + 1) =>
          ({ f with
              polls := some p, lastPollTime := now,
              pollInterval :=
                min (f.pollInterval * cfg.backoffFactor) cfg.maxInterval },
           none, false)
      | none =>
          ({ f with
              lastPollTime := now,
              pollInterval :=
                min (f.pollInterval * cfg.backoffFactor) cfg.maxInterval },
           none, false)
  else (f, none, false)

/-- The poll phase over the active dict in insertion order. -/
def spollPhase (cfg : SCfg) (now : ℚ) :
    List (SFut β) → List (SFut β) × List String × List (SItem β)
  | [] => ([], [], [])
  | f :: fs =>
      let v := spollOne cfg now f
      let r := spollPhase cfg now fs
      (v.1 :: r.1,
       (if v.2.2 then [v.1.key] else []) ++ r.2.1,
       v.2.1.toList ++ r.2.2)

/-- The timeout phase (spec §4.4 step 3) over the still-active futures: each
future whose deadline has passed is cancelled best-effort — one
`stop_session` each, the transport handle and session id being bound inside
the batch — and yields a failure item whose message begins with
"Timeout".  The deadline comparison is taken as `≥` so that the discrete
clock fires the timeout at the boundary instant. -/
def stimeoutPhase (timeout : Option ℚ) (now : ℚ) :
    List (SFut β) → List String × List (SItem β) × ℕ
  | [] => ([], [], 0)
  | f :: fs =>
      let r := stimeoutPhase timeout now fs
      match timeout with
      | some T =>
          if T ≤ now - f.submitTime then
            (f.key :: r.1,
             (⟨false, none,
                some ("Timeout after " ++ toString T ++ "s"), f.idx,
                now - f.submitTime⟩ : SItem β) :: r.2.1,
             r.2.2 + 1)
          else r
      | none => r

/-- `max(0, poll_interval - (now - last_poll_time))` for a spec future. -/
def swaitTime (now : ℚ) (f : SFut β) : ℚ :=
  max 0 (f.pollInterval - (now - f.lastPollTime))

/-- The least time until a poll is due, over a non-empty active list. -/
def sminWait (now : ℚ) : List (SFut β) → ℚ
  | [] => 0
  | [f] => swaitTime now f
  | f :: fs => min (swaitTime now f) (sminWait now fs)

/-- The least time until a per-job deadline, over a non-empty active list. -/
def sminTT (T now : ℚ) : List (SFut β) → ℚ
  | [] => 0
  | [f] => f.submitTime + T - now
  | f :: fs => min (f.submitTime + T - now) (sminTT T now fs)

/-- The sleep amount (spec §4.4 step 5): the minimum of the next poll
deadline and the nearest timeout deadline. -/
def ssleepAmount (cfg : SCfg) (now : ℚ) (l : List (SFut β)) : ℚ :=
  match cfg.timeout with
  | some T => min (sminWait now l) (sminTT T now l)
  | none => sminWait now l

/-- One iteration of the spec engine's main loop (spec §4.4): fill, poll,
timeout, reap, and — when futures remain and none completed — sleep until
the next event. -/
def sstep (cfg : SCfg) (env : ℕ → SOutcome β) (s : SSt α β) : SSt α β :=
  let s1 := sfill cfg env s.pending { s with pending := [] }
  let pr := spollPhase cfg s1.now s1.active
  let survivors := pr.1.filter (fun g => g.key ∉ pr.2.1)
  let tr := stimeoutPhase cfg.timeout s1.now survivors
  let reaped := survivors.filter (fun g => g.key ∉ tr.1)
  let s2 := { s1 with
      active := reaped,
      stops := s1.stops + tr.2.2,
      trace := s1.trace ++ (pr.2.2.map (fun it => (it, s1.now)))
        ++ (tr.2.1.map (fun it => (it, s1.now))) }
  if reaped.isEmpty = false ∧ pr.2.1.isEmpty ∧ tr.1.isEmpty then
    let m := ssleepAmount cfg s2.now reaped
    if 0 < m then { s2 with now := s2.now + m } else s2
  else s2

/-- Iterating the spec engine loop body `n` times. -/
def sIter (cfg : SCfg) (env : ℕ → SOutcome β) : ℕ → SSt α β → SSt α β
  | 0, s => s
  | n + 1, s => sIter cfg env n (sstep cfg env s)

/-- Running the loop with a step budget: `some` of the final state when
`pending` and `active` both empty out. -/
def srun (cfg : SCfg) (env : ℕ → SOutcome β) :
    ℕ → SSt α β → Option (SSt α β)
  | 0, s => if s.pending.isEmpty && s.active.isEmpty then some s else none
  | n + 1, s =>
      if s.pending.isEmpty && s.active.isEmpty then some s
      else srun cfg env n (sstep cfg env s)

/-- The initial spec-engine state. -/
def sinit (t0 : ℚ) (payloads : List α) : SSt α β :=
  ⟨t0, 0, payloads.enum, [], 0, [], []⟩

end SpecBatch

namespace SpecBatch

/-- Every yielded item's `elapsed` is its emission time minus a recorded
submission-attempt time for its index; items for failed submissions are
exactly `BatchItem(success=false, error=str(e), index=i, elapsed=0)`. -/
def TraceOK (env : ℕ → SOutcome β) (s : SSt α β) : Prop :=
  ∀ e ∈ s.trace, ∃ tsub, (e.1.index, tsub) ∈ s.subLog
    ∧ e.1.elapsed = e.2 - tsub ∧ tsub ≤ e.2 ∧ e.2 ≤ s.now
    ∧ (∀ msg, env e.1.index = SOutcome.submitError msg →
        e.1 = ⟨false, none, some msg, e.1.index, 0⟩)

/-- Active futures carry their logged submit time and an accepted
submission. -/
def ActOK (env : ℕ → SOutcome β) (s : SSt α β) : Prop :=
  ∀ f ∈ s.active, f.submitTime ≤ s.now ∧ (f.idx, f.submitTime) ∈ s.subLog
    ∧ ∃ po fe, env f.idx = SOutcome.accepted f.key po fe

/-- Logged submission attempts lie in the past. -/
def LogOK (s : SSt α β) : Prop := ∀ q ∈ s.subLog, q.2 ≤ s.now

/-- The ghost invariant of the spec engine. -/
def SInv (env : ℕ → SOutcome β) (s : SSt α β) : Prop :=
  TraceOK env s ∧ ActOK env s ∧ LogOK s

theorem mem_sdictSet {l : List (SFut β)} {f g : SFut β}
    (h : g ∈ sdictSet l f) : g ∈ l ∨ g = f := by
  unfold sdictSet at h
  split at h
  · rcases List.mem_map.mp h with ⟨g0, hg0, hg⟩
    by_cases hk : g0.key = f.key
    · right
      rw [if_pos hk] at hg
      exact hg.symm
    · left
      rw [if_neg hk] at hg
      exact hg ▸ hg0
  · rcases List.mem_append.mp h with h1 | h1
    · exact Or.inl h1
    · exact Or.inr (by simpa using h1)

theorem smkItem_fields (now : ℚ) (f : SFut β) :
    (smkItem now f).index = f.idx
      ∧ (smkItem now f).elapsed = now - f.submitTime := by
  cases h : f.fetch <;> simp [smkItem, h]

theorem spollPhase_items (cfg : SCfg) (now : ℚ) :
    ∀ (l : List (SFut β)) (it : SItem β),
      it ∈ (spollPhase cfg now l).2.2 →
      ∃ f ∈ l, it.index = f.idx ∧ it.elapsed = now - f.submitTime := by
  intro l
  induction l with
  | nil =>
      intro it hit
      simp [spollPhase] at hit
  | cons f fs ih =>
      intro it hit
      simp only [spollPhase, List.mem_append] at hit
      rcases hit with h1 | h1
      · -- item from the head's pollOne
        unfold spollOne at h1
        split at h1
        · split at h1
          · simp only [Option.toList_some, List.mem_singleton] at h1
            subst h1
            exact ⟨f, by simp, (smkItem_fields now f).1, (smkItem_fields now f).2⟩
          · rcases hp : f.polls with _ | p
            · rw [hp] at h1
              simp at h1
            · rcases p with _ | p2
              · rw [hp] at h1
                simp only [Option.toList_some, List.mem_singleton] at h1
                subst h1
                refine ⟨f, by simp, ?_, ?_⟩
                · exact (smkItem_fields now _).1
                · exact (smkItem_fields now _).2
              · rw [hp] at h1
                simp at h1
        · simp at h1
      · obtain ⟨f0, hf0, hprops⟩ := ih it h1
        exact ⟨f0, List.mem_cons_of_mem f hf0, hprops⟩

theorem spollPhase_futs (cfg : SCfg) (now : ℚ) :
    ∀ (l : List (SFut β)) (g : SFut β),
      g ∈ (spollPhase cfg now l).1 →
      ∃ f ∈ l, g.idx = f.idx ∧ g.submitTime = f.submitTime
        ∧ g.key = f.key := by
  intro l
  induction l with
  | nil =>
      intro g hg
      simp [spollPhase] at hg
  | cons f fs ih =>
      intro g hg
      simp only [spollPhase, List.mem_cons] at hg
      rcases hg with h1 | h1
      · refine ⟨f, by simp, ?_⟩
        subst h1
        unfold spollOne
        split
        · split
          · exact ⟨rfl, rfl, rfl⟩
          · rcases hp : f.polls with _ | p
            · exact ⟨rfl, rfl, rfl⟩
            · rcases p with _ | p2 <;> exact ⟨rfl, rfl, rfl⟩
        · exact ⟨rfl, rfl, rfl⟩
      · obtain ⟨f0, hf0, hprops⟩ := ih g h1
        exact ⟨f0, List.mem_cons_of_mem f hf0, hprops⟩

theorem stimeoutPhase_items (timeout : Option ℚ) (now : ℚ) :
    ∀ (l : List (SFut β)) (it : SItem β),
      it ∈ (stimeoutPhase timeout now l).2.1 →
      ∃ f ∈ l, it.index = f.idx ∧ it.elapsed = now - f.submitTime := by
  intro l
  induction l with
  | nil =>
      intro it hit
      simp [stimeoutPhase] at hit
  | cons f fs ih =>
      intro it hit
      rcases timeout with _ | T
      · simp only [stimeoutPhase] at hit
        obtain ⟨f0, hf0, hprops⟩ := ih it hit
        exact ⟨f0, List.mem_cons_of_mem f hf0, hprops⟩
      · simp only [stimeoutPhase] at hit
        split at hit
        · simp only [List.mem_cons] at hit
          rcases hit with h1 | h1
          · subst h1
            exact ⟨f, by simp, rfl, rfl⟩
          · obtain ⟨f0, hf0, hprops⟩ := ih it h1
            exact ⟨f0, List.mem_cons_of_mem f hf0, hprops⟩
        · obtain ⟨f0, hf0, hprops⟩ := ih it hit
          exact ⟨f0, List.mem_cons_of_mem f hf0, hprops⟩

end SpecBatch

namespace SpecBatch

theorem stps_now_mono (cfg : SCfg) (s : SSt α β) : s.now ≤ (stps cfg s).now := by
  unfold stps
  dsimp only
  split
  · linarith
  · exact le_rfl

theorem SInv_now_mono {env : ℕ → SOutcome β} {s : SSt α β} (h : SInv env s)
    {t lit : ℚ} (hle : s.now ≤ t) :
    SInv env { s with now := t, lastInvokeTime := lit } := by
  obtain ⟨ht, ha, hl⟩ := h
  refine ⟨?_, ?_, ?_⟩
  · intro e he
    obtain ⟨tsub, h1, h2, h3, h4, h5⟩ := ht e he
    exact ⟨tsub, h1, h2, h3, le_trans h4 hle, h5⟩
  · intro f hf
    obtain ⟨h1, h2, h3⟩ := ha f hf
    exact ⟨le_trans h1 hle, h2, h3⟩
  · intro q hq
    exact le_trans (hl q hq) hle

theorem sfill_SInv (cfg : SCfg) (env : ℕ → SOutcome β) :
    ∀ (pend : List (ℕ × α)) (s : SSt α β), SInv env s →
      SInv env (sfill cfg env pend s)
        ∧ s.now ≤ (sfill cfg env pend s).now := by
  intro pend
  induction pend with
  | nil => exact fun s h => ⟨h, le_rfl⟩
  | cons hd rest ih =>
      rcases hd with ⟨i, p⟩
      intro s h
      show SInv env (sfill cfg env ((i, p) :: rest) s) ∧ _
      unfold sfill
      split
      · have hmono := stps_now_mono cfg s
        have h1 : SInv env (stps cfg s) := SInv_now_mono h hmono
        rcases henv : env i with e | ⟨k, polls, fetch⟩
        · -- submission failure: immediate zero-elapsed item
          obtain ⟨ht1, ha1, hl1⟩ := h1
          have h2 : SInv env { stps cfg s with
              subLog := (stps cfg s).subLog ++ [(i, (stps cfg s).now)],
              trace := (stps cfg s).trace
                ++ [((⟨false, none, some e, i, 0⟩ : SItem β),
                    (stps cfg s).now)] } := by
            refine ⟨?_, ?_, ?_⟩
            · intro x hx
              rcases List.mem_append.mp hx with hx1 | hx1
              · obtain ⟨tsub, p1, p2, p3, p4, p5⟩ := ht1 x hx1
                exact ⟨tsub, List.mem_append_left _ p1, p2, p3, p4, p5⟩
              · have hx2 : x = ((⟨false, none, some e, i, 0⟩ : SItem β),
                    (stps cfg s).now) := by simpa using hx1
                subst hx2
                refine ⟨(stps cfg s).now,
                  List.mem_append_right _ (by simp), by simp, le_rfl,
                  le_rfl, ?_⟩
                intro msg hmsg
                rw [henv] at hmsg
                cases hmsg
                rfl
            · intro f hf
              obtain ⟨p1, p2, p3⟩ := ha1 f hf
              exact ⟨p1, List.mem_append_left _ p2, p3⟩
            · intro q hq
              rcases List.mem_append.mp hq with hq1 | hq1
              · exact hl1 q hq1
              · have : q = (i, (stps cfg s).now) := by simpa using hq1
                subst this
                exact le_rfl
          obtain ⟨h3, h4⟩ := ih _ h2
          exact ⟨h3, le_trans hmono h4⟩
        · -- accepted: fresh coherent future
          obtain ⟨ht1, ha1, hl1⟩ := h1
          have h2 : SInv env { stps cfg s with
              active := sdictSet (stps cfg s).active
                (⟨k, i, (stps cfg s).now, polls, fetch, false,
                  cfg.initialInterval, 0⟩ : SFut β),
              subLog := (stps cfg s).subLog ++ [(i, (stps cfg s).now)] } := by
            refine ⟨?_, ?_, ?_⟩
            · intro x hx
              obtain ⟨tsub, p1, p2, p3, p4, p5⟩ := ht1 x hx
              exact ⟨tsub, List.mem_append_left _ p1, p2, p3, p4, p5⟩
            · intro f hf
              rcases mem_sdictSet hf with hf1 | hf1
              · obtain ⟨p1, p2, p3⟩ := ha1 f hf1
                exact ⟨p1, List.mem_append_left _ p2, p3⟩
              · subst hf1
                exact ⟨le_rfl, List.mem_append_right _ (by simp),
                  polls, fetch, henv⟩
            · intro q hq
              rcases List.mem_append.mp hq with hq1 | hq1
              · exact hl1 q hq1
              · have : q = (i, (stps cfg s).now) := by simpa using hq1
                subst this
                exact le_rfl
          obtain ⟨h3, h4⟩ := ih _ h2
          exact ⟨h3, le_trans hmono h4⟩
      · exact ⟨⟨h.1, h.2.1, h.2.2⟩, le_rfl⟩

theorem sstep_SInv (cfg : SCfg) (env : ℕ → SOutcome β) (s : SSt α β)
    (h : SInv env s) :
    SInv env (sstep cfg env s) ∧ s.now ≤ (sstep cfg env s).now := by
  have h0 : SInv env ({ s with pending := [] } : SSt α β) :=
    ⟨h.1, h.2.1, h.2.2⟩
  obtain ⟨h1, hmono1⟩ := sfill_SInv cfg env s.pending { s with pending := [] }
    h0
  set s1 := sfill cfg env s.pending { s with pending := [] } with hs1
  obtain ⟨ht1, ha1, hl1⟩ := h1
  -- the post-reap state at the unchanged clock
  have h2 : SInv env { s1 with
      active := (((spollPhase cfg s1.now s1.active).1.filter
          (fun g => g.key ∉ (spollPhase cfg s1.now s1.active).2.1)).filter
        (fun g => g.key ∉ (stimeoutPhase cfg.timeout s1.now
          ((spollPhase cfg s1.now s1.active).1.filter
            (fun g => g.key ∉ (spollPhase cfg s1.now s1.active).2.1))).1)),
      stops := s1.stops + (stimeoutPhase cfg.timeout s1.now
        ((spollPhase cfg s1.now s1.active).1.filter
          (fun g => g.key ∉ (spollPhase cfg s1.now s1.active).2.1))).2.2,
      trace := s1.trace
        ++ ((spollPhase cfg s1.now s1.active).2.2.map (fun it => (it, s1.now)))
        ++ ((stimeoutPhase cfg.timeout s1.now
            ((spollPhase cfg s1.now s1.active).1.filter
              (fun g => g.key ∉ (spollPhase cfg s1.now s1.active).2.1))).2.1.map
          (fun it => (it, s1.now))) } := by
    have hFromActive : ∀ it : SItem β,
        (∃ f ∈ s1.active, it.index = f.idx
          ∧ it.elapsed = s1.now - f.submitTime) →
        ∃ tsub, (it.index, tsub) ∈ s1.subLog ∧ it.elapsed = s1.now - tsub
          ∧ tsub ≤ s1.now ∧ (∀ msg,
            env it.index = SOutcome.submitError msg →
            it = ⟨false, none, some msg, it.index, 0⟩) := by
      intro it ⟨f, hf, hidx, hel⟩
      obtain ⟨p1, p2, ⟨po, fe, p3⟩⟩ := ha1 f hf
      refine ⟨f.submitTime, by rw [hidx]; exact p2, hel, p1, ?_⟩
      intro msg hmsg
      rw [hidx, p3] at hmsg
      cases hmsg
    refine ⟨?_, ?_, ?_⟩
    · intro x hx
      rcases List.mem_append.mp hx with hx0 | hx1
      · rcases List.mem_append.mp hx0 with hx2 | hx2
        · obtain ⟨tsub, p1, p2, p3, p4, p5⟩ := ht1 x hx2
          exact ⟨tsub, p1, p2, p3, p4, p5⟩
        · obtain ⟨it, hit, hxe⟩ := List.mem_map.mp hx2
          subst hxe
          obtain ⟨f, hf, hidx, hel⟩ := spollPhase_items cfg s1.now _ it hit
          obtain ⟨tsub, q1, q2, q3, q4⟩ :=
            hFromActive it ⟨f, hf, hidx, hel⟩
          exact ⟨tsub, q1, q2, q3, le_rfl, q4⟩
      · obtain ⟨it, hit, hxe⟩ := List.mem_map.mp hx1
        subst hxe
        obtain ⟨g, hg, hidx, hel⟩ :=
          stimeoutPhase_items cfg.timeout s1.now _ it hit
        have hg2 : g ∈ (spollPhase cfg s1.now s1.active).1 :=
          List.mem_of_mem_filter hg
        obtain ⟨f, hf, hgi, hgs, _⟩ := spollPhase_futs cfg s1.now _ g hg2
        obtain ⟨tsub, q1, q2, q3, q4⟩ := hFromActive it
          ⟨f, hf, hgi ▸ hidx, by rw [hel, hgs]⟩
        exact ⟨tsub, q1, q2, q3, le_rfl, q4⟩
    · intro g hg
      have hg1 : g ∈ (spollPhase cfg s1.now s1.active).1 :=
        List.mem_of_mem_filter (List.mem_of_mem_filter hg)
      obtain ⟨f, hf, hgi, hgs, hgk⟩ := spollPhase_futs cfg s1.now _ g hg1
      obtain ⟨p1, p2, ⟨po, fe, p3⟩⟩ := ha1 f hf
      exact ⟨hgs ▸ p1, by rw [hgi, hgs]; exact p2,
        po, fe, by rw [hgi, hgk]; exact p3⟩
    · exact hl1
  -- the step is that state, with the clock possibly advanced by the sleep
  unfold sstep
  dsimp only
  split
  · split
    · rename_i hm
      refine ⟨SInv_now_mono h2 (by linarith), ?_⟩
      show s.now ≤ _ + _
      linarith
    · exact ⟨h2, hmono1⟩
  · exact ⟨h2, hmono1⟩

theorem sIter_SInv (cfg : SCfg) (env : ℕ → SOutcome β) :
    ∀ (n : ℕ) (s : SSt α β), SInv env s → SInv env (sIter cfg env n s) := by
  intro n
  induction n with
  | zero => exact fun s h => h
  | succ n ih =>
      intro s h
      exact ih _ (sstep_SInv cfg env s h).1

end SpecBatch

namespace SpecBatch

/-- C6: in the spec batch engine (modelled from the spec; the `elapsed`
field and the ghost logs are absent from the snapshotted source), every
yielded `BatchItem`'s `elapsed` equals the wall clock at the moment it was
yielded minus the recorded wall-clock time of that job's submission
attempt, which is no later; and a job whose submission raised is yielded
exactly as `BatchItem(success=false, error=str(e), index=i, elapsed=0)`. -/
theorem c6_elapsed_from_submission {α β : Type} (cfg : SCfg)
    (env : ℕ → SOutcome β) (t0 : ℚ) (payloads : List α) (n : ℕ) :
    ∀ e ∈ (sIter cfg env n (sinit t0 payloads) : SSt α β).trace,
      ∃ tsub, (e.1.index, tsub) ∈ (sIter cfg env n
          (sinit t0 payloads) : SSt α β).subLog
        ∧ e.1.elapsed = e.2 - tsub ∧ tsub ≤ e.2
        ∧ e.2 ≤ (sIter cfg env n (sinit t0 payloads) : SSt α β).now
        ∧ (∀ msg, env e.1.index = SOutcome.submitError msg →
            e.1 = ⟨false, none, some msg, e.1.index, 0⟩) := by
  have h0 : SInv env (sinit t0 payloads : SSt α β) := by
    refine ⟨?_, ?_, ?_⟩
    · intro e he
      simp [sinit] at he
    · intro f hf
      simp [sinit] at hf
    · intro q hq
      simp [sinit] at hq
  exact (sIter_SInv cfg env n _ h0).1

/-- One engine round over a single payload whose submission raises: the
yielded item is the zero-elapsed failure item, and its logged submission
time witnesses the elapsed law. -/
theorem c6_elapsed_from_submission_witness :
    ∃ tsub,
      ((0 : ℕ), tsub) ∈ (sIter ⟨1, 0, 1, 10, 2, none⟩
          (fun _ => SOutcome.submitError "boom") 1
          (sinit 0 [5] : SSt ℕ ℕ)).subLog
      ∧ (⟨false, none, some "boom", 0, 0⟩ : SItem ℕ).elapsed = (0 : ℚ) - tsub
      ∧ tsub ≤ (0 : ℚ)
      ∧ (0 : ℚ) ≤ (sIter ⟨1, 0, 1, 10, 2, none⟩
          (fun _ => SOutcome.submitError "boom") 1
          (sinit 0 [5] : SSt ℕ ℕ)).now
      ∧ (∀ msg, (fun _ => (SOutcome.submitError "boom" : SOutcome ℕ)) 0
            = SOutcome.submitError msg →
          (⟨false, none, some "boom", 0, 0⟩ : SItem ℕ)
            = ⟨false, none, some msg, 0, 0⟩) := by
  have hmem : ((⟨false, none, some "boom", 0, 0⟩ : SItem ℕ), (0 : ℚ))
      ∈ (sIter ⟨1, 0, 1, 10, 2, none⟩
          (fun _ => SOutcome.submitError "boom") 1
          (sinit 0 [5] : SSt ℕ ℕ)).trace := by
    norm_num [sIter, sstep, sfill, stps, sinit, spollPhase, stimeoutPhase,
      List.enum]
  exact c6_elapsed_from_submission ⟨1, 0, 1, 10, 2, none⟩
    (fun _ => SOutcome.submitError "boom") 0 [5] 1
    ((⟨false, none, some "boom", 0, 0⟩ : SItem ℕ), (0 : ℚ)) hmem

end SpecBatch

namespace SpecBatch

/-- A round on a lone never-appearing future whose deadline has passed: the
poll yields nothing, the timeout phase cancels the session (one
`stop_session`), removes the future and yields the timeout failure item. -/
theorem c4_fire (cfg : SCfg) (T : ℚ) (hT : cfg.timeout = some T)
    (env : ℕ → SOutcome β) (key : String) (f0 : Except String β)
    (tsub now lti pi lpt : ℚ) (L : List (ℕ × ℚ))
    (hfire : T ≤ now - tsub) :
    sstep cfg env (⟨now, lti, [],
        [⟨key, 0, tsub, none, f0, false, pi, lpt⟩], 0, L, []⟩ : SSt α β)
      = ⟨now, lti, [], [], 1, L,
         [(⟨false, none, some ("Timeout after " ++ toString T ++ "s"),
            0, now - tsub⟩, now)]⟩ := by
  by_cases hdue : pi ≤ now - lpt
  · simp [sstep, sfill, spollPhase, spollOne, stimeoutPhase, hT, hdue, hfire]
  · simp [sstep, sfill, spollPhase, spollOne, stimeoutPhase, hT, hdue, hfire]

end SpecBatch

namespace SpecBatch

/-- A round on a lone never-appearing future whose deadline has not yet
passed: nothing is yielded, the future survives (possibly backed off), and
the engine sleeps a positive amount bounded by the events it wakes for:
either it wakes exactly at the deadline, or it slept a full (≥ min of the
initial and max intervals) poll interval, or the future was not yet due and
the engine wakes exactly when its poll falls due. -/
theorem c4_advance (cfg : SCfg) (T : ℚ) (hT : cfg.timeout = some T)
    (hM : 0 < cfg.maxInterval) (hbf : 1 ≤ cfg.backoffFactor)
    (env : ℕ → SOutcome β) (key : String) (f0 : Except String β)
    (tsub now lti pi lpt : ℚ) (L : List (ℕ × ℚ))
    (hpi : min cfg.initialInterval cfg.maxInterval ≤ pi) (hpi0 : 0 < pi)
    (hnof : now - tsub < T) :
    ∃ pi2 lpt2 m,
      sstep cfg env (⟨now, lti, [],
          [⟨key, 0, tsub, none, f0, false, pi, lpt⟩], 0, L, []⟩ : SSt α β)
        = ⟨now + m, lti, [],
           [⟨key, 0, tsub, none, f0, false, pi2, lpt2⟩], 0, L, []⟩
      ∧ 0 < m ∧ 0 < pi2
      ∧ min cfg.initialInterval cfg.maxInterval ≤ pi2
      ∧ (now + m = tsub + T
          ∨ min cfg.initialInterval cfg.maxInterval ≤ m
          ∨ (¬ pi ≤ now - lpt ∧ pi2 = pi ∧ lpt2 = lpt
              ∧ pi ≤ now + m - lpt)) := by
  have hnof' : ¬ T ≤ now - tsub := not_le.mpr hnof
  have hrem : 0 < tsub + T - now := by linarith
  by_cases hdue : pi ≤ now - lpt
  · -- the poll is due: back off, then sleep min(new interval, deadline)
    set pi2 := min (pi * cfg.backoffFactor) cfg.maxInterval with hpi2
    have hpi20 : 0 < pi2 := by
      refine lt_min ?_ hM
      calc (0 : ℚ) < pi := hpi0
        _ = pi * 1 := (mul_one _).symm
        _ ≤ pi * cfg.backoffFactor :=
            mul_le_mul_of_nonneg_left hbf (le_of_lt hpi0)
    have hpi2d : min cfg.initialInterval cfg.maxInterval ≤ pi2 := by
      refine le_min ?_ (min_le_right _ _)
      calc min cfg.initialInterval cfg.maxInterval ≤ pi := hpi
        _ = pi * 1 := (mul_one _).symm
        _ ≤ pi * cfg.backoffFactor :=
            mul_le_mul_of_nonneg_left hbf (le_of_lt hpi0)
    refine ⟨pi2, now, min pi2 (tsub + T - now), ?_, ?_, hpi20, hpi2d, ?_⟩
    · have hm : 0 < min pi2 (tsub + T - now) := lt_min hpi20 hrem
      simp [sstep, sfill, spollPhase, spollOne, stimeoutPhase, ssleepAmount,
        sminWait, sminTT, swaitTime, hT, hdue, hnof', hm,
        max_eq_right (le_of_lt hpi20)]
    · exact lt_min hpi20 hrem
    · rcases le_total pi2 (tsub + T - now) with hle | hle
      · exact Or.inr (Or.inl (by rw [min_eq_left hle]; exact hpi2d))
      · exact Or.inl (by rw [min_eq_right hle]; ring)
  · -- not due: the future is untouched; sleep min(time to due, deadline)
    have hw : 0 < pi - (now - lpt) := by
      have := not_le.mp hdue
      linarith
    refine ⟨pi, lpt, min (pi - (now - lpt)) (tsub + T - now), ?_, ?_, hpi0,
      hpi, ?_⟩
    · have hm : 0 < min (pi - (now - lpt)) (tsub + T - now) := lt_min hw hrem
      simp [sstep, sfill, spollPhase, spollOne, stimeoutPhase, ssleepAmount,
        sminWait, sminTT, swaitTime, hT, hdue, hnof', hm,
        max_eq_right (le_of_lt hw)]
    · exact lt_min hw hrem
    · rcases le_total (pi - (now - lpt)) (tsub + T - now) with hle | hle
      · refine Or.inr (Or.inr ⟨hdue, rfl, rfl, ?_⟩)
        rw [min_eq_left hle]
        linarith
      · exact Or.inl (by rw [min_eq_right hle]; ring)

end SpecBatch

namespace SpecBatch

/-- The first fill round on a one-payload queue whose submission is
accepted: the rate limiter stamps some time `ts`, the future is registered
with the initial interval and `last_poll_time = 0`, and the submit time is
logged. -/
theorem c4_first_fill (cfg : SCfg) (env : ℕ → SOutcome β) (key : String)
    (f0 : Except String β)
    (henv : env 0 = SOutcome.accepted key none f0)
    (hmc : 1 ≤ cfg.maxConcurrent) (t0 : ℚ) (p : α) :
    ∃ ts, sfill cfg env [(0, p)] (⟨t0, 0, [], [], 0, [], []⟩ : SSt α β)
      = ⟨ts, ts, [],
         [⟨key, 0, ts, none, f0, false, cfg.initialInterval, 0⟩],
         0, [(0, ts)], []⟩ := by
  have hg : (0 : ℤ) < cfg.maxConcurrent := by omega
  by_cases h : t0 < cfg.minInvokeInterval
  · exact ⟨t0 + (cfg.minInvokeInterval - (t0 - 0)),
      by simp [sfill, stps, sdictSet, henv, hg, h]⟩
  · exact ⟨t0, by simp [sfill, stps, sdictSet, henv, hg, h]⟩

/-- Timeout-progress induction for the lone permanent-404 job: once the
remaining time to the deadline is covered by `k` sleeps of at least the
minimum poll granularity, the run reaches — in finitely many steps — the
final state where the job has been timed out: one `stop_session`, empty
active set, and the single timeout failure item in the trace. -/
theorem c4_progress (cfg : SCfg) (T : ℚ) (hT : cfg.timeout = some T)
    (hM : 0 < cfg.maxInterval) (hbf : 1 ≤ cfg.backoffFactor)
    (env : ℕ → SOutcome β) (key : String) (f0 : Except String β)
    (tsub : ℚ) :
    ∀ (k : ℕ) (now lti pi lpt : ℚ) (L : List (ℕ × ℚ)),
      min cfg.initialInterval cfg.maxInterval ≤ pi → 0 < pi →
      T < now - tsub + k * min cfg.initialInterval cfg.maxInterval →
      ∃ n s', srun cfg env n (sstep cfg env
          (⟨now, lti, [], [⟨key, 0, tsub, none, f0, false, pi, lpt⟩],
            0, L, []⟩ : SSt α β)) = some s'
        ∧ s'.pending = [] ∧ s'.active = [] ∧ s'.stops = 1
        ∧ ∃ el temit, T ≤ el
          ∧ s'.trace = [(⟨false, none,
              some ("Timeout after " ++ toString T ++ "s"), 0, el⟩,
              temit)] := by
  intro k
  induction k with
  | zero =>
      intro now lti pi lpt L hpi hpi0 hk
      have hfire : T ≤ now - tsub := by
        simpa using le_of_lt hk
      rw [c4_fire cfg T hT env key f0 tsub now lti pi lpt L hfire]
      exact ⟨0, ⟨now, lti, [], [], 1, L,
          [(⟨false, none, some ("Timeout after " ++ toString T ++ "s"),
             0, now - tsub⟩, now)]⟩,
        by simp [srun], rfl, rfl, rfl, now - tsub, now, hfire, rfl⟩
  | succ k ih =>
      intro now lti pi lpt L hpi hpi0 hk
      by_cases hfire : T ≤ now - tsub
      · rw [c4_fire cfg T hT env key f0 tsub now lti pi lpt L hfire]
        exact ⟨0, ⟨now, lti, [], [], 1, L,
            [(⟨false, none, some ("Timeout after " ++ toString T ++ "s"),
               0, now - tsub⟩, now)]⟩,
          by simp [srun], rfl, rfl, rfl, now - tsub, now, hfire, rfl⟩
      · have hnof : now - tsub < T := not_le.mp hfire
        obtain ⟨pi2, lpt2, m1, heq1, hm1, hpi20, hpi2d, hcase1⟩ :=
          c4_advance cfg T hT hM hbf env key f0 tsub now lti pi lpt L
            hpi hpi0 hnof
        rw [heq1]
        rcases hcase1 with hA | hB | hC
        · -- woke exactly at the deadline: the next round fires
          have hfire2 : T ≤ now + m1 - tsub := by linarith
          refine ⟨1, ⟨now + m1, lti, [], [], 1, L,
              [(⟨false, none, some ("Timeout after " ++ toString T ++ "s"),
                 0, now + m1 - tsub⟩, now + m1)]⟩,
            ?_, rfl, rfl, rfl, now + m1 - tsub, now + m1, hfire2, rfl⟩
          rw [srun, if_neg (by simp)]
          rw [c4_fire cfg T hT env key f0 tsub (now + m1) lti pi2 lpt2 L
            hfire2]
          simp [srun]
        · -- slept a full interval: recurse with one fewer interval owed
          obtain ⟨n, s', hrun, q1, q2, q3, q4⟩ :=
            ih (now + m1) lti pi2 lpt2 L hpi2d hpi20
              (by push_cast [add_mul] at hk ⊢; linarith)
          refine ⟨n + 1, s', ?_, q1, q2, q3, q4⟩
          rw [srun, if_neg (by simp)]
          exact hrun
        · -- woke exactly when the poll falls due: the next round polls
          obtain ⟨hnd, hpe, hle, hdue2⟩ := hC
          by_cases hfire2 : T ≤ now + m1 - tsub
          · refine ⟨1, ⟨now + m1, lti, [], [], 1, L,
                [(⟨false, none, some ("Timeout after " ++ toString T ++ "s"),
                   0, now + m1 - tsub⟩, now + m1)]⟩,
              ?_, rfl, rfl, rfl, now + m1 - tsub, now + m1, hfire2, rfl⟩
            rw [srun, if_neg (by simp)]
            rw [c4_fire cfg T hT env key f0 tsub (now + m1) lti pi2 lpt2 L
              hfire2]
            simp [srun]
          · have hnof2 : now + m1 - tsub < T := not_le.mp hfire2
            obtain ⟨pi3, lpt3, m2, heq2, hm2, hpi30, hpi3d, hcase2⟩ :=
              c4_advance cfg T hT hM hbf env key f0 tsub (now + m1) lti pi2
                lpt2 L hpi2d hpi20 hnof2
            rcases hcase2 with hA2 | hB2 | hC2
            · -- deadline wake after the due poll: fires two rounds later
              have hfire3 : T ≤ now + m1 + m2 - tsub := by linarith
              refine ⟨2, ⟨now + m1 + m2, lti, [], [], 1, L,
                  [(⟨false, none,
                     some ("Timeout after " ++ toString T ++ "s"),
                     0, now + m1 + m2 - tsub⟩, now + m1 + m2)]⟩,
                ?_, rfl, rfl, rfl, now + m1 + m2 - tsub,
                now + m1 + m2, hfire3, rfl⟩
              rw [srun, if_neg (by simp), heq2, srun, if_neg (by simp)]
              rw [c4_fire cfg T hT env key f0 tsub (now + m1 + m2) lti pi3
                lpt3 L hfire3]
              simp [srun]
            · -- a full-interval sleep after the due poll: recurse
              obtain ⟨n, s', hrun, q1, q2, q3, q4⟩ :=
                ih (now + m1 + m2) lti pi3 lpt3 L hpi3d hpi30
                  (by push_cast [add_mul] at hk ⊢; linarith)
              refine ⟨n + 2, s', ?_, q1, q2, q3, q4⟩
              rw [srun, if_neg (by simp), heq2, srun, if_neg (by simp)]
              exact hrun
            · exact absurd (by rw [hpe, hle]; exact hdue2) hC2.1

end SpecBatch

namespace SpecBatch

/-- The engine loop only looks at the fill result: stepping a state equals
stepping its filled form once the queue has drained into it. -/
theorem sstep_fill_congr (cfg : SCfg) (env : ℕ → SOutcome β)
    (s t : SSt α β) (ht : t.pending = [])
    (h : sfill cfg env s.pending { s with pending := [] } = t) :
    sstep cfg env s = sstep cfg env t := by
  obtain ⟨n2, l2, p2, a2, o2, sl2, tr2⟩ := t
  simp only at ht
  subst ht
  simp only [sstep]
  rw [h]
  rfl

/-- C4: in the spec batch engine (modelled from the spec; `run_batch`'s
`timeout=` and the cancellation path are absent from the snapshotted
source), a single job whose result object never appears (HEAD permanently
404) under a per-job timeout `T` terminates the run with exactly one
`stop_session` call and a single yielded failure item: success `false`,
an error message beginning with "Timeout", the job's index `0`, and
`elapsed ≥ T`. -/
theorem c4_permanent_404_times_out {α β : Type} (cfg : SCfg) (T : ℚ)
    (env : ℕ → SOutcome β) (key : String) (f0 : Except String β)
    (t0 : ℚ) (p : α)
    (henv : env 0 = SOutcome.accepted key none f0)
    (hT : cfg.timeout = some T)
    (hI : 0 < cfg.initialInterval) (hM : 0 < cfg.maxInterval)
    (hbf : 1 ≤ cfg.backoffFactor) (hmc : 1 ≤ cfg.maxConcurrent) :
    ∃ n s', srun cfg env n (sinit t0 [p] : SSt α β) = some s'
      ∧ s'.stops = 1
      ∧ ∃ el temit rest, T ≤ el
        ∧ s'.trace = [((⟨false, none, some ("Timeout" ++ rest), 0,
            el⟩ : SItem β), temit)] := by
  obtain ⟨ts, hts⟩ := c4_first_fill cfg env key f0 henv hmc t0 p
  have hδ0 : 0 < min cfg.initialInterval cfg.maxInterval := lt_min hI hM
  obtain ⟨k, hk⟩ :=
    exists_nat_gt (T / min cfg.initialInterval cfg.maxInterval)
  have hkb : T < ts - ts + k * min cfg.initialInterval cfg.maxInterval := by
    have h1 : T < k * min cfg.initialInterval cfg.maxInterval := by
      rwa [div_lt_iff₀ hδ0] at hk
    linarith
  obtain ⟨n, s', hrun, q1, q2, q3, el, temit, hel, htr⟩ :=
    c4_progress cfg T hT hM hbf env key f0 ts k ts ts
      cfg.initialInterval 0 [(0, ts)] (min_le_left _ _) hI hkb
  have hstep : sstep cfg env (sinit t0 [p] : SSt α β)
      = sstep cfg env (⟨ts, ts, [],
          [⟨key, 0, ts, none, f0, false, cfg.initialInterval, 0⟩],
          0, [(0, ts)], []⟩ : SSt α β) := by
    refine sstep_fill_congr cfg env _ _ rfl ?_
    exact hts
  have hmsg : ("Timeout after " ++ toString T ++ "s" : String)
      = "Timeout" ++ (" after " ++ toString T ++ "s") := by
    simp only [← String.append_assoc]
    rfl
  refine ⟨n + 1, s', ?_, q3, el, temit, " after " ++ toString T ++ "s",
    hel, ?_⟩
  · have hg : ((sinit t0 [p] : SSt α β).pending.isEmpty
        && (sinit t0 [p] : SSt α β).active.isEmpty) = false := rfl
    rw [srun, hg]
    simp only [Bool.false_eq_true, if_false]
    rw [hstep]
    exact hrun
  · rw [htr, hmsg]

end SpecBatch

namespace SpecBatch

/-- One job, accepted with a result object that never appears, run under
`timeout = 5` with the defaults `initial_interval = 1`,
`max_interval = 10`, `backoff_factor = 2`, `max_concurrent = 1`: the run
terminates with one `stop_session`, and the single yielded item is a
"Timeout"-prefixed failure with index `0` and `elapsed ≥ 5`. -/
theorem c4_permanent_404_times_out_witness :
    ∃ n s', srun (⟨1, 0, 1, 10, 2, some 5⟩ : SCfg)
        (fun _ => SOutcome.accepted "k" none (Except.error "gone")) n
        (sinit 0 [7] : SSt ℕ ℕ) = some s'
      ∧ s'.stops = 1
      ∧ ∃ el temit rest, (5 : ℚ) ≤ el
        ∧ s'.trace = [((⟨false, none, some ("Timeout" ++ rest), 0,
            el⟩ : SItem ℕ), temit)] :=
  c4_permanent_404_times_out ⟨1, 0, 1, 10, 2, some 5⟩ 5
    (fun _ => SOutcome.accepted "k" none (Except.error "gone")) "k"
    (Except.error "gone") 0 7 rfl rfl (by decide) (by decide) (by decide)
    (by decide)

end SpecBatch
